import Mathlib

/-!
# Verification of the LRCP line-reversal server

Shallow embedding of `src/7 - line reversal/line-reversal.py`.

Modelling conventions:
* A Python `bytes` value is a `List Nat` of byte values.
* A reassembly-buffer slot (`Session.data` element) is one `bytes` token; the
  empty bytes `b''` (here `[]`) is the hole / "empty slot" marker.
* Exceptions raised while handling a datagram (`IndexError`, `ValueError` from
  `int()`, `KeyError`, tuple-unpack failures) abort the handler before any
  state mutation on every reachable path, so they are modelled as a drop:
  the table is unchanged and no datagram is sent.
* `int()` is modelled for optional surrounding ASCII whitespace, an optional
  sign, and a nonempty digit string in which single underscores may appear
  between two digits (PEP 515), exactly as Python accepts.
* Negative `POS` values in a `data` datagram (Python negative list indexing
  inside `add_data`) are not modelled and are treated as a drop; no claim
  exercises them.
* Transport addresses are opaque (`Nat`); an outgoing datagram is a pair of
  its bytes and its destination address.
-/

namespace LineReversal

/-- One stored token (a Python `bytes` object): a list of byte values. -/
abbrev Token := List Nat

/-- An outgoing datagram: payload bytes and destination address. -/
abbrev Out := List Nat × Nat

/-- ASCII bytes of `"connect"`. -/
def kConnect : List Nat := [99, 111, 110, 110, 101, 99, 116]

/-- ASCII bytes of `"data"`. -/
def kData : List Nat := [100, 97, 116, 97]

/-- ASCII bytes of `"ack"`. -/
def kAck : List Nat := [97, 99, 107]

/-- ASCII bytes of `"close"`. -/
def kClose : List Nat := [99, 108, 111, 115, 101]

/-- Per-session state, mirroring `class Session` (fields `id`, `addr`,
`data`, `cursor`, `send_cursor`, `acked_until`, `is_closed`, `send_buffer`;
the `transport` field is the single shared transport and is not part of the
state). -/
structure Session where
  id : List Nat
  addr : Nat
  data : List Token := []
  cursor : Nat := 0
  send_cursor : Nat := 0
  acked_until : Int := 0
  is_closed : Bool := false
  send_buffer : List Token := []
deriving DecidableEq

/-- `Session(session_id, transport, addr)` with dataclass defaults. -/
def mkSession (id : List Nat) (addr : Nat) : Session :=
  { id := id, addr := addr }

/-- The write loop of `Session.add_data`:
`for i in range(pos, pos + len(data)): self.data[i] = data[i - pos]`. -/
def setChunk : List Token → Nat → List Token → List Token
  | d, _, [] => d
  | d, i, t :: ts => setChunk (d.set i t) (i + 1) ts

/-- `Session.add_data`: pad `data` with empty slots up to `pos + len(chunk)`
(a negative pad count is an empty pad, as in Python), then overwrite the
slots `[pos, pos + len(chunk))`. -/
def Session.add_data (s : Session) (pos : Nat) (chunk : List Token) : Session :=
  let padded := s.data ++ List.replicate (pos + chunk.length - s.data.length) ([] : Token)
  { s with data := setChunk padded pos chunk }

/-- Decimal ASCII representation of a natural number (`str(n).encode()`).
Fuel-based so that it reduces in the kernel; `n + 1` fuel always suffices. -/
def decReprAux : Nat → Nat → List Nat
  | 0, _ => []
  | fuel + 1, n => if n < 10 then [48 + n] else decReprAux fuel (n / 10) ++ [48 + n % 10]

/-- Decimal ASCII representation of a natural number. -/
def decRepr (n : Nat) : List Nat := decReprAux (n + 1) n

/-- `b'/data/' + id + b'/' + str(off).encode() + b'/' + payload + b'/'`. -/
def mkDataMsg (id : List Nat) (off : Nat) (payload : List Nat) : List Nat :=
  [47] ++ kData ++ [47] ++ id ++ [47] ++ decRepr off ++ [47] ++ payload ++ [47]

/-- `b'/ack/' + id + b'/' + lenBytes + b'/'`. -/
def mkAckMsg (id : List Nat) (lenBytes : List Nat) : List Nat :=
  [47] ++ kAck ++ [47] ++ id ++ [47] ++ lenBytes ++ [47]

/-- `b'/close/' + id + b'/'`. -/
def mkCloseMsg (id : List Nat) : List Nat :=
  [47] ++ kClose ++ [47] ++ id ++ [47]

/-- The chunking loop of `Session.send_data`: emit the whole buffer in
pieces of `CHUNK_SIZE = 512` tokens, the wire offset advancing by 512 per
piece.  Fuel-based (each step consumes at least one token, so
`buffer.length` fuel suffices). -/
def chunkLoopAux (id : List Nat) (addr : Nat) : Nat → List Token → Nat → List Out
  | _, [], _ => []
  | 0, _ :: _, _ => []
  | fuel + 1, t :: ts, cursor =>
      (mkDataMsg id cursor ((t :: ts).take 512).flatten, addr)
        :: chunkLoopAux id addr fuel ((t :: ts).drop 512) (cursor + 512)

/-- `Session.send_data`: nothing if the session is closed, otherwise the
entire send buffer from its start, in 512-token pieces. -/
def Session.send_data (s : Session) : List Out :=
  if s.is_closed then []
  else chunkLoopAux s.id s.addr s.send_buffer.length s.send_buffer 0

/-- `t == b'\n'` as a Bool: the single-newline token test of `handle_data`. -/
def isNl (t : Token) : Bool := decide (t = [10])

/-- `t == b''` as a Bool: the empty-slot test. -/
def isEmptySlot (t : Token) : Bool := decide (t = ([] : Token))

/-- Index of the first element satisfying `p` (`list.index` up to the
try/except in the caller). -/
def firstIdx (p : Token → Bool) : List Token → Option Nat
  | [] => none
  | t :: ts =>
    if p t then some 0
    else
      match firstIdx p ts with
      | none => none
      | some i => some (i + 1)

/-- The scan loop of `Session.handle_data`:
`for i in range(self.cursor, len(self.data))`, emitting each reversed line
followed by `b'\n'` into the send buffer and re-sending the whole buffer
after each line.  Fuel-based with `len(data) - cursor` fuel (the range is
fixed at entry and `data` does not change inside the loop). -/
def handleLoop : Nat → Session → Nat → Session × List Out
  | 0, s, _ => (s, [])
  | fuel + 1, s, i =>
    if s.data.getD i [] = ([10] : Token) then
      let line : List Token := (s.data.take i).drop s.cursor
      let s' : Session := { s with
        send_buffer := s.send_buffer ++ line.reverse ++ [[10]],
        cursor := i + 1,
        send_cursor := s.send_cursor + line.length + 1 }
      let rest := handleLoop fuel s' (i + 1)
      (rest.1, s'.send_data ++ rest.2)
    else handleLoop fuel s (i + 1)

/-- `Session.handle_data`: return unchanged if any slot is empty, otherwise
extract every newline-terminated line at or after the cursor. -/
def Session.handle_data (s : Session) : Session × List Out :=
  if ([] : Token) ∈ s.data then (s, [])
  else handleLoop (s.data.length - s.cursor) s s.cursor

/-- The payload tokenizer `[x for x in re.split(br'(\\?.)', data) if x]`.
Since `.` does not match `b'\n'`, a maximal run of newline bytes is left
between matches and survives as a single multi-byte token; a backslash
followed by a non-newline byte forms a two-byte token; a backslash followed
by a newline (or at the end) stands alone; every other byte is a single
token.  Fuel-based (each step consumes at least one byte). -/
def tokenizeAux : Nat → List Nat → List Token
  | 0, _ => []
  | fuel + 1, l =>
    match l with
    | [] => []
    | c :: rest =>
      if c = 10 then
        (10 :: rest.takeWhile (fun b => b = 10))
          :: tokenizeAux fuel (rest.dropWhile (fun b => b = 10))
      else if c = 92 then
        match rest with
        | [] => [[92]]
        | c2 :: rest2 =>
          if c2 = 10 then [92] :: tokenizeAux fuel rest
          else [92, c2] :: tokenizeAux fuel rest2
      else [c] :: tokenizeAux fuel rest

/-- Tokenize a `data` payload. -/
def tokenize (l : List Nat) : List Token := tokenizeAux l.length l

/-- `bytes.split(sep, 1)` restricted to its first two pieces: `none` when
the separator does not occur (a 1-element split, failing a 2-tuple unpack). -/
def splitFirst (sep : Nat) : List Nat → Option (List Nat × List Nat)
  | [] => none
  | c :: rest =>
    if c = sep then some ([], rest)
    else (splitFirst sep rest).map (fun p => (c :: p.1, p.2))

/-- ASCII whitespace accepted by Python `int()`. -/
def isSpace (c : Nat) : Bool :=
  decide (c = 32 ∨ c = 9 ∨ c = 10 ∨ c = 13 ∨ c = 11 ∨ c = 12)

/-- Accumulating digit parse after a first digit has been consumed: a
single underscore is accepted only when a digit follows it immediately
(PEP 515); anything else is a failure. -/
def parseDigitsAux : List Nat → Nat → Option Nat
  | [], acc => some acc
  | c :: rest, acc =>
    if 48 ≤ c ∧ c ≤ 57 then parseDigitsAux rest (acc * 10 + (c - 48))
    else if c = 95 then
      match rest with
      | [] => none
      | c2 :: rest2 =>
        if 48 ≤ c2 ∧ c2 ≤ 57 then parseDigitsAux rest2 (acc * 10 + (c2 - 48))
        else none
    else none

/-- Nonempty digit string (single underscores allowed between digits, never
leading, trailing or doubled) to its value. -/
def parseDigits : List Nat → Option Nat
  | [] => none
  | c :: rest =>
    if 48 ≤ c ∧ c ≤ 57 then parseDigitsAux rest (c - 48) else none

/-- Python `int(bytes)`: optional surrounding whitespace, optional sign,
nonempty digit string with single underscore separators between digits. -/
def pyInt (l : List Nat) : Option Int :=
  let l1 := ((l.dropWhile isSpace).reverse.dropWhile isSpace).reverse
  match l1 with
  | 43 :: rest => (parseDigits rest).map Int.ofNat
  | 45 :: rest => (parseDigits rest).map (fun n => -(Int.ofNat n))
  | l2 => (parseDigits l2).map Int.ofNat

/-- The session table `sessions: dict[bytes, Session]`, insertion-ordered. -/
abbrev Table := List (List Nat × Session)

/-- Dictionary lookup `sessions[session_id]` / `session_id in sessions`. -/
def findSession : Table → List Nat → Option Session
  | [], _ => none
  | (k, s) :: rest, sid => if k = sid then some s else findSession rest sid

/-- Dictionary value update for an existing key. -/
def updateSession : Table → List Nat → Session → Table
  | [], _, _ => []
  | (k, s) :: rest, sid, s' =>
    if k = sid then (k, s') :: rest else (k, s) :: updateSession rest sid s'

/-- The cumulative-ack length of the `data` branch:
`data.index(b'')` with the `ValueError` handler falling back to `len(data)`. -/
def ackLenOf (d : List Token) : Nat :=
  match firstIdx isEmptySlot d with
  | some i => i
  | none => d.length

/-- The `connect` branch of `datagram_received`.  `rest` is everything after
`b'connect/'` up to the final framing slash; a `/` inside it fails the
1-tuple unpack. -/
def handleConnect (table : Table) (rest : List Nat) (addr : Nat) : Table × List Out :=
  if 47 ∈ rest then (table, [])
  else
    match pyInt rest with
    | none => (table, [])
    | some v =>
      if (2 : Int) ^ 31 < v then (table, [])
      else
        let table' :=
          if (findSession table rest).isSome then table
          else table ++ [(rest, mkSession rest addr)]
        (table', [(mkAckMsg rest [48], addr)])

/-- The `data` branch of `datagram_received`. -/
def handleDataMsg (table : Table) (rest : List Nat) (addr : Nat) : Table × List Out :=
  match splitFirst 47 rest with
  | none => (table, [])
  | some (sid, rest2) =>
    match splitFirst 47 rest2 with
    | none => (table, [])
    | some (pos, payload) =>
      match findSession table sid with
      | none => (table, [(mkCloseMsg sid, addr)])
      | some s =>
        if s.is_closed then (table, [(mkCloseMsg sid, addr)])
        else
          let toks := tokenize payload
          if ([47] : Token) ∈ toks then (table, [])
          else
            match pyInt pos with
            | none => (table, [])
            | some v =>
              if v < 0 then (table, [])
              else
                let s2 := ((s.add_data v.toNat toks).handle_data)
                (updateSession table sid s2.1,
                  s2.2 ++ [(mkAckMsg sid (decRepr (ackLenOf s2.1.data)), addr)])

/-- The `ack` branch of `datagram_received`.  `rest.split(b'/', 2)` must
yield exactly two pieces for the 2-tuple unpack to succeed. -/
def handleAck (table : Table) (rest : List Nat) (addr : Nat) : Table × List Out :=
  match splitFirst 47 rest with
  | none => (table, [])
  | some (sid, until_) =>
    if 47 ∈ until_ then (table, [])
    else
      match findSession table sid with
      | none => (table, [])
      | some s =>
        match pyInt until_ with
        | none => (table, [])
        | some v =>
          let s' := { s with acked_until := v }
          (updateSession table sid s',
            if (s.data.length : Int) < v then [(mkCloseMsg sid, addr)] else [])

/-- The `close` branch of `datagram_received`. -/
def handleClose (table : Table) (rest : List Nat) (addr : Nat) : Table × List Out :=
  if 47 ∈ rest then (table, [])
  else
    match findSession table rest with
    | none => (table, [])
    | some s =>
      let s2 := ({ s with is_closed := true }).handle_data
      (updateSession table rest s2.1, s2.2 ++ [(mkCloseMsg rest, addr)])

/-- `LRCP.datagram_received`: outer framing check, split of the message
kind, then dispatch (the source's `if` chain tests mutually exclusive
kinds). -/
def datagramReceived (table : Table) (dgram : List Nat) (addr : Nat) : Table × List Out :=
  if dgram.head? = some 47 ∧ dgram.getLast? = some 47 then
    match splitFirst 47 ((dgram.drop 1).dropLast) with
    | none => (table, [])
    | some (msgType, rest) =>
      if msgType = kConnect then handleConnect table rest addr
      else if msgType = kData then handleDataMsg table rest addr
      else if msgType = kAck then handleAck table rest addr
      else if msgType = kClose then handleClose table rest addr
      else (table, [])
  else (table, [])

/-- `maybe_retransmit`: every non-closed session re-sends its buffer. -/
def maybe_retransmit (table : Table) : List Out :=
  (table.map (fun kv => if kv.2.is_closed then [] else kv.2.send_data)).flatten

/-! ## Specification-side functions

Clean restatements of the spec's line-extraction and chunking language,
to be compared with the source translations above. -/

/-- Spec-side line extraction: for each newline token in order, the run of
tokens before it reversed and followed by a newline.  Fuel-based. -/
def linesOutAux : Nat → List Token → List Token
  | 0, _ => []
  | fuel + 1, l =>
    match firstIdx isNl l with
    | none => []
    | some i => (l.take i).reverse ++ [[10]] ++ linesOutAux fuel (l.drop (i + 1))

/-- Spec-side line extraction output for a complete token sequence. -/
def linesOut (l : List Token) : List Token := linesOutAux l.length l

/-- Number of tokens consumed by line extraction (everything up to and
including the last extractable newline). -/
def consumedAux : Nat → List Token → Nat
  | 0, _ => 0
  | fuel + 1, l =>
    match firstIdx isNl l with
    | none => 0
    | some i => i + 1 + consumedAux fuel (l.drop (i + 1))

/-- Number of tokens consumed by line extraction. -/
def consumed (l : List Token) : Nat := consumedAux l.length l

/-- Spec-side chunking: the buffer cut into consecutive pieces of at most
512 tokens. -/
def chunksOfAux : Nat → List Token → List (List Token)
  | _, [] => []
  | 0, _ :: _ => []
  | fuel + 1, l => l.take 512 :: chunksOfAux fuel (l.drop 512)

/-- The buffer cut into consecutive pieces of at most 512 tokens. -/
def chunksOf (l : List Token) : List (List Token) := chunksOfAux l.length l

/-- One inbound `data` datagram applied at session level: write the chunk,
then run line extraction (the engine's order in the `data` branch). -/
def stepW (s : Session) (w : Nat × List Token) : Session :=
  ((s.add_data w.1 w.2).handle_data).1

/-- A whole arrival schedule of `data` datagrams applied to a session. -/
def applyDatagrams (s : Session) (ws : List (Nat × List Token)) : Session :=
  ws.foldl stepW s

/-- A write `(pos, chunk)` is consistent with the logical stream: it lies
inside the stream and carries the stream's tokens at its offsets. -/
def Consistent (stream : List Token) (w : Nat × List Token) : Prop :=
  w.1 + w.2.length ≤ stream.length ∧
    ∀ j, j < w.2.length → w.2.getD j [] = stream.getD (w.1 + j) []

/-- Position `i` is supplied by at least one write of the schedule. -/
def Covers (ws : List (Nat × List Token)) (i : Nat) : Prop :=
  ∃ w ∈ ws, w.1 ≤ i ∧ i < w.1 + w.2.length

instance (stream : List Token) (w : Nat × List Token) :
    Decidable (Consistent stream w) := by
  unfold Consistent; infer_instance

instance (ws : List (Nat × List Token)) (i : Nat) : Decidable (Covers ws i) := by
  unfold Covers; infer_instance

/-- Invariant tying a session fed `data` writes to the logical token stream
it reconstructs: the buffer is a partial copy of the stream, everything
before the cursor is filled and sits on a line boundary, and the send
buffer holds exactly the reversed lines of the consumed prefix. -/
structure Inv (stream : List Token) (s : Session) : Prop where
  len_le : s.data.length ≤ stream.length
  slots : ∀ i, s.data.getD i [] = stream.getD i [] ∨ s.data.getD i [] = []
  cursor_le : s.cursor ≤ s.data.length
  sb : s.send_buffer = linesOut (stream.take s.cursor)
  boundary : consumed (stream.take s.cursor) = s.cursor
  whole : (([] : Token) ∉ s.data) → s.cursor = consumed s.data

/-- Wire form of a `connect` datagram. -/
def mkConnectDgram (sid : List Nat) : List Nat :=
  [47] ++ kConnect ++ [47] ++ sid ++ [47]

/-- Wire form of a `data` datagram. -/
def mkDataDgram (sid pos payload : List Nat) : List Nat :=
  [47] ++ kData ++ [47] ++ sid ++ [47] ++ pos ++ [47] ++ payload ++ [47]

/-- Wire form of an `ack` datagram. -/
def mkAckDgram (sid lenBytes : List Nat) : List Nat :=
  [47] ++ kAck ++ [47] ++ sid ++ [47] ++ lenBytes ++ [47]

/-- Wire form of a `close` datagram. -/
def mkCloseDgram (sid : List Nat) : List Nat :=
  [47] ++ kClose ++ [47] ++ sid ++ [47]

/-- A concrete open session used to instantiate the general theorems. -/
def sampleOpen : Session :=
  { id := [49], addr := 0, send_buffer := [[98], [97], [10]] }

/-- A concrete closed session used to instantiate the general theorems. -/
def sampleClosed : Session :=
  { id := [49], addr := 0, is_closed := true, send_buffer := [[98], [97], [10]] }

/-- A concrete quiescent session (one fully extracted line) used to
instantiate the general theorems. -/
def sampleQuiescent : Session :=
  { id := [49], addr := 0, data := [[97], [10]], cursor := 2, send_cursor := 2,
    send_buffer := [[97], [10]] }


/-! ## Lemmas about `firstIdx` -/

theorem firstIdx_cons_pos {p : Token → Bool} {t : Token} (ts : List Token)
    (hp : p t = true) : firstIdx p (t :: ts) = some 0 := by
  simp [firstIdx, hp]

theorem firstIdx_cons_neg_none {p : Token → Bool} {t : Token} {ts : List Token}
    (hp : p t = false) (hr : firstIdx p ts = none) :
    firstIdx p (t :: ts) = none := by
  simp [firstIdx, hp, hr]

theorem firstIdx_cons_neg_some {p : Token → Bool} {t : Token} {ts : List Token} {i : Nat}
    (hp : p t = false) (hr : firstIdx p ts = some i) :
    firstIdx p (t :: ts) = some (i + 1) := by
  simp [firstIdx, hp, hr]

theorem firstIdx_none_iff (p : Token → Bool) : ∀ l : List Token,
    firstIdx p l = none ↔ ∀ t ∈ l, p t = false := by
  intro l
  induction l with
  | nil => simp [firstIdx]
  | cons t ts ih =>
    cases hp : p t with
    | false =>
      cases hr : firstIdx p ts with
      | none =>
        rw [firstIdx_cons_neg_none hp hr]
        constructor
        · intro _ x hx
          rcases List.mem_cons.mp hx with rfl | hx'
          · exact hp
          · exact (ih.mp hr) x hx'
        · intro _; rfl
      | some i =>
        rw [firstIdx_cons_neg_some hp hr]
        constructor
        · intro h; simp at h
        · intro hall
          have h0 : firstIdx p ts = none :=
            ih.mpr (fun x hx => hall x (List.mem_cons_of_mem _ hx))
          rw [h0] at hr; cases hr
    | true =>
      rw [firstIdx_cons_pos ts hp]
      constructor
      · intro h; simp at h
      · intro hall
        have h1 := hall t (List.mem_cons_self t ts)
        rw [hp] at h1; cases h1

theorem firstIdx_some_lt {p : Token → Bool} : ∀ {l : List Token} {i : Nat},
    firstIdx p l = some i → i < l.length := by
  intro l
  induction l with
  | nil => intro i h; simp [firstIdx] at h
  | cons t ts ih =>
    intro i h
    cases hp : p t with
    | true =>
      rw [firstIdx_cons_pos ts hp] at h
      injection h with h
      subst h
      simp
    | false =>
      cases hr : firstIdx p ts with
      | none => rw [firstIdx_cons_neg_none hp hr] at h; simp at h
      | some j =>
        rw [firstIdx_cons_neg_some hp hr] at h
        injection h with h
        subst h
        have := ih hr
        simp only [List.length_cons]
        omega

theorem firstIdx_spec {p : Token → Bool} : ∀ {l : List Token} {i : Nat},
    firstIdx p l = some i →
    p (l.getD i []) = true ∧ ∀ j, j < i → p (l.getD j []) = false := by
  intro l
  induction l with
  | nil => intro i h; simp [firstIdx] at h
  | cons t ts ih =>
    intro i h
    cases hp : p t with
    | true =>
      rw [firstIdx_cons_pos ts hp] at h
      injection h with h
      subst h
      exact ⟨by simpa using hp, by intro j hj; omega⟩
    | false =>
      cases hr : firstIdx p ts with
      | none => rw [firstIdx_cons_neg_none hp hr] at h; simp at h
      | some j =>
        rw [firstIdx_cons_neg_some hp hr] at h
        injection h with h
        subst h
        obtain ⟨h1, h2⟩ := ih hr
        refine ⟨by simpa using h1, ?_⟩
        intro k hk
        cases k with
        | zero => simpa using hp
        | succ k => simpa using h2 k (by omega)

theorem firstIdx_eq_some_of {p : Token → Bool} : ∀ {l : List Token} {i : Nat},
    i < l.length → p (l.getD i []) = true →
    (∀ j, j < i → p (l.getD j []) = false) →
    firstIdx p l = some i := by
  intro l
  induction l with
  | nil => intro i h _ _; simp at h
  | cons t ts ih =>
    intro i hlt hp hbef
    cases i with
    | zero =>
      have h1 : p t = true := by simpa using hp
      exact firstIdx_cons_pos ts h1
    | succ i =>
      have h0 : p t = false := by simpa using hbef 0 (Nat.succ_pos i)
      have hr : firstIdx p ts = some i := by
        refine ih ?_ (by simpa using hp) ?_
        · simp only [List.length_cons] at hlt; omega
        · intro j hj
          simpa using hbef (j + 1) (by omega)
      exact firstIdx_cons_neg_some h0 hr

theorem firstIdx_append_of_some {p : Token → Bool} : ∀ {a : List Token} {i : Nat},
    firstIdx p a = some i → ∀ b, firstIdx p (a ++ b) = some i := by
  intro a
  induction a with
  | nil => intro i h b; simp [firstIdx] at h
  | cons t ts ih =>
    intro i h b
    cases hp : p t with
    | true =>
      rw [firstIdx_cons_pos ts hp] at h
      injection h with h
      subst h
      exact firstIdx_cons_pos _ hp
    | false =>
      cases hr : firstIdx p ts with
      | none => rw [firstIdx_cons_neg_none hp hr] at h; simp at h
      | some j =>
        rw [firstIdx_cons_neg_some hp hr] at h
        injection h with h
        subst h
        exact firstIdx_cons_neg_some hp (ih hr b)

/-! ## Unfolding lemmas for `linesOut`, `consumed` -/

theorem linesOutAux_fuel : ∀ f1 f2 (l : List Token), l.length ≤ f1 → l.length ≤ f2 →
    linesOutAux f1 l = linesOutAux f2 l := by
  intro f1
  induction f1 with
  | zero =>
    intro f2 l h1 _
    have hl : l = [] := List.length_eq_zero.mp (by omega)
    subst hl
    cases f2 <;> simp [linesOutAux, firstIdx]
  | succ f ih =>
    intro f2 l h1 h2
    cases f2 with
    | zero =>
      have hl : l = [] := List.length_eq_zero.mp (by omega)
      subst hl
      simp [linesOutAux, firstIdx]
    | succ g =>
      cases hf : firstIdx isNl l with
      | none => simp only [linesOutAux, hf]
      | some i =>
        have hi := firstIdx_some_lt hf
        simp only [linesOutAux, hf]
        rw [ih g (l.drop (i + 1)) (by simp only [List.length_drop]; omega)
          (by simp only [List.length_drop]; omega)]

theorem consumedAux_fuel : ∀ f1 f2 (l : List Token), l.length ≤ f1 → l.length ≤ f2 →
    consumedAux f1 l = consumedAux f2 l := by
  intro f1
  induction f1 with
  | zero =>
    intro f2 l h1 _
    have hl : l = [] := List.length_eq_zero.mp (by omega)
    subst hl
    cases f2 <;> simp [consumedAux, firstIdx]
  | succ f ih =>
    intro f2 l h1 h2
    cases f2 with
    | zero =>
      have hl : l = [] := List.length_eq_zero.mp (by omega)
      subst hl
      simp [consumedAux, firstIdx]
    | succ g =>
      cases hf : firstIdx isNl l with
      | none => simp only [consumedAux, hf]
      | some i =>
        have hi := firstIdx_some_lt hf
        simp only [consumedAux, hf]
        rw [ih g (l.drop (i + 1)) (by simp only [List.length_drop]; omega)
          (by simp only [List.length_drop]; omega)]

theorem linesOut_none {l : List Token} (hf : firstIdx isNl l = none) :
    linesOut l = [] := by
  cases l with
  | nil => rfl
  | cons t ts => simp only [linesOut, List.length_cons, linesOutAux, hf]

theorem linesOut_some {l : List Token} {i : Nat} (hf : firstIdx isNl l = some i) :
    linesOut l = (l.take i).reverse ++ [[10]] ++ linesOut (l.drop (i + 1)) := by
  have hi := firstIdx_some_lt hf
  obtain ⟨n, hn⟩ : ∃ n, l.length = n + 1 := ⟨l.length - 1, by omega⟩
  simp only [linesOut, hn, linesOutAux, hf]
  rw [linesOutAux_fuel n (l.drop (i + 1)).length (l.drop (i + 1))
    (by simp only [List.length_drop]; omega) (le_refl _)]

theorem consumed_none {l : List Token} (hf : firstIdx isNl l = none) :
    consumed l = 0 := by
  cases l with
  | nil => rfl
  | cons t ts => simp only [consumed, List.length_cons, consumedAux, hf]

theorem consumed_some {l : List Token} {i : Nat} (hf : firstIdx isNl l = some i) :
    consumed l = i + 1 + consumed (l.drop (i + 1)) := by
  have hi := firstIdx_some_lt hf
  obtain ⟨n, hn⟩ : ∃ n, l.length = n + 1 := ⟨l.length - 1, by omega⟩
  simp only [consumed, hn, consumedAux, hf]
  rw [consumedAux_fuel n (l.drop (i + 1)).length (l.drop (i + 1))
    (by simp only [List.length_drop]; omega) (le_refl _)]

theorem linesOut_of_no_nl {l : List Token} (h : ∀ t ∈ l, isNl t = false) :
    linesOut l = [] :=
  linesOut_none ((firstIdx_none_iff _ _).mpr h)

theorem consumed_of_no_nl {l : List Token} (h : ∀ t ∈ l, isNl t = false) :
    consumed l = 0 :=
  consumed_none ((firstIdx_none_iff _ _).mpr h)

theorem consumed_le : ∀ (n : Nat) (l : List Token), l.length ≤ n → consumed l ≤ l.length := by
  intro n
  induction n with
  | zero =>
    intro l h
    have hl : l = [] := List.length_eq_zero.mp (by omega)
    subst hl
    simp [consumed, consumedAux]
  | succ n ih =>
    intro l h
    cases hf : firstIdx isNl l with
    | none => rw [consumed_none hf]; omega
    | some i =>
      have hi := firstIdx_some_lt hf
      rw [consumed_some hf]
      have hd := ih (l.drop (i + 1)) (by simp only [List.length_drop]; omega)
      simp only [List.length_drop] at hd
      omega

theorem consumed_length_le (l : List Token) : consumed l ≤ l.length :=
  consumed_le l.length l (le_refl _)

/-! ## Lemmas about `splitFirst` and datagram framing -/

theorem splitFirst_not_mem {sep : Nat} : ∀ {l : List Nat}, sep ∉ l →
    splitFirst sep l = none := by
  intro l
  induction l with
  | nil => intro _; rfl
  | cons c rest ih =>
    intro h
    have hc : ¬c = sep := by
      intro hcc
      subst hcc
      exact h (List.mem_cons_self c rest)
    have hrest : sep ∉ rest := fun hm => h (List.mem_cons_of_mem _ hm)
    simp [splitFirst, hc, ih hrest]

theorem splitFirst_append {sep : Nat} : ∀ {a : List Nat} (b : List Nat), sep ∉ a →
    splitFirst sep (a ++ sep :: b) = some (a, b) := by
  intro a
  induction a with
  | nil => intro b _; simp [splitFirst]
  | cons c rest ih =>
    intro b h
    have hc : ¬c = sep := by
      intro hcc
      subst hcc
      exact h (List.mem_cons_self c rest)
    have hrest : sep ∉ rest := fun hm => h (List.mem_cons_of_mem _ hm)
    simp [splitFirst, hc, ih b hrest]

theorem getLast?_append_singleton : ∀ (l : List Nat) (a : Nat),
    (l ++ [a]).getLast? = some a := by
  intro l a
  exact List.getLast?_concat l

theorem datagramReceived_framed (table : Table) (mt rest : List Nat) (addr : Nat)
    (hmt : 47 ∉ mt) :
    datagramReceived table ([47] ++ mt ++ [47] ++ rest ++ [47]) addr =
      (if mt = kConnect then handleConnect table rest addr
       else if mt = kData then handleDataMsg table rest addr
       else if mt = kAck then handleAck table rest addr
       else if mt = kClose then handleClose table rest addr
       else (table, [])) := by
  have he : ([47] ++ mt ++ [47] ++ rest ++ [47] : List Nat) =
      47 :: ((mt ++ 47 :: rest) ++ [47]) := by
    simp
  rw [he]
  have hhead : (47 :: ((mt ++ 47 :: rest) ++ [47]) : List Nat).head? = some 47 := rfl
  have hlast : (47 :: ((mt ++ 47 :: rest) ++ [47]) : List Nat).getLast? = some 47 := by
    have : (47 :: ((mt ++ 47 :: rest) ++ [47]) : List Nat) =
        (47 :: (mt ++ 47 :: rest)) ++ [47] := by simp
    rw [this, getLast?_append_singleton]
  have hinner : ((47 :: ((mt ++ 47 :: rest) ++ [47]) : List Nat).drop 1).dropLast =
      mt ++ 47 :: rest := by
    simp only [List.drop_succ_cons, List.drop_zero]
    exact List.dropLast_concat
  unfold datagramReceived
  rw [if_pos ⟨hhead, hlast⟩, hinner, splitFirst_append rest hmt]

theorem dR_connect (table : Table) (sid : List Nat) (addr : Nat) :
    datagramReceived table (mkConnectDgram sid) addr = handleConnect table sid addr := by
  have he : mkConnectDgram sid = [47] ++ kConnect ++ [47] ++ sid ++ [47] := rfl
  rw [he, datagramReceived_framed table kConnect sid addr (by decide), if_pos rfl]

theorem dR_data (table : Table) (sid pos payload : List Nat) (addr : Nat) :
    datagramReceived table (mkDataDgram sid pos payload) addr =
      handleDataMsg table (sid ++ [47] ++ pos ++ [47] ++ payload) addr := by
  have he : mkDataDgram sid pos payload =
      [47] ++ kData ++ [47] ++ (sid ++ [47] ++ pos ++ [47] ++ payload) ++ [47] := by
    simp [mkDataDgram]
  rw [he, datagramReceived_framed table kData _ addr (by decide),
    if_neg (by decide), if_pos rfl]

theorem dR_ack (table : Table) (sid lenBytes : List Nat) (addr : Nat) :
    datagramReceived table (mkAckDgram sid lenBytes) addr =
      handleAck table (sid ++ [47] ++ lenBytes) addr := by
  have he : mkAckDgram sid lenBytes =
      [47] ++ kAck ++ [47] ++ (sid ++ [47] ++ lenBytes) ++ [47] := by
    simp [mkAckDgram]
  rw [he, datagramReceived_framed table kAck _ addr (by decide),
    if_neg (by decide), if_neg (by decide), if_pos rfl]

theorem dR_close (table : Table) (sid : List Nat) (addr : Nat) :
    datagramReceived table (mkCloseDgram sid) addr = handleClose table sid addr := by
  have he : mkCloseDgram sid = [47] ++ kClose ++ [47] ++ sid ++ [47] := rfl
  rw [he, datagramReceived_framed table kClose sid addr (by decide),
    if_neg (by decide), if_neg (by decide), if_neg (by decide), if_pos rfl]

theorem dR_unframed (table : Table) (dgram : List Nat) (addr : Nat)
    (h : ¬(dgram.head? = some 47 ∧ dgram.getLast? = some 47)) :
    datagramReceived table dgram addr = (table, []) := by
  unfold datagramReceived
  rw [if_neg h]

theorem dR_unknown_kind (table : Table) (mt rest : List Nat) (addr : Nat)
    (hmt : 47 ∉ mt) (h1 : mt ≠ kConnect) (h2 : mt ≠ kData) (h3 : mt ≠ kAck)
    (h4 : mt ≠ kClose) :
    datagramReceived table ([47] ++ mt ++ [47] ++ rest ++ [47]) addr = (table, []) := by
  rw [datagramReceived_framed table mt rest addr hmt,
    if_neg h1, if_neg h2, if_neg h3, if_neg h4]

/-! ## Session-table lemmas -/

theorem findSession_update_self : ∀ (t : Table) (sid : List Nat) (s v : Session),
    findSession t sid = some s → findSession (updateSession t sid v) sid = some v := by
  intro t
  induction t with
  | nil => intro sid s v h; simp [findSession] at h
  | cons kv rest ih =>
    intro sid s v h
    obtain ⟨k, sv⟩ := kv
    by_cases hk : k = sid
    · subst hk
      simp [updateSession, findSession]
    · simp only [findSession, if_neg hk] at h
      simp only [updateSession, if_neg hk, findSession]
      exact ih sid s v h

theorem findSession_update_ne : ∀ (t : Table) (sid k : List Nat) (v : Session),
    k ≠ sid → findSession (updateSession t sid v) k = findSession t k := by
  intro t
  induction t with
  | nil => intro sid k v _; rfl
  | cons kv rest ih =>
    intro sid k v hne
    obtain ⟨k0, sv⟩ := kv
    by_cases hk : k0 = sid
    · subst hk
      simp only [updateSession, if_pos rfl, findSession]
      rw [if_neg (by intro hc; exact hne (by rw [hc])), if_neg (by intro hc; exact hne (by rw [hc]))]
    · simp only [updateSession, if_neg hk, findSession]
      by_cases hk2 : k0 = k
      · rw [if_pos hk2, if_pos hk2]
      · rw [if_neg hk2, if_neg hk2]
        exact ih sid k v hne

theorem updateSession_self : ∀ (t : Table) (sid : List Nat) (s : Session),
    findSession t sid = some s → updateSession t sid s = t := by
  intro t
  induction t with
  | nil => intro sid s h; simp [findSession] at h
  | cons kv rest ih =>
    intro sid s h
    obtain ⟨k, sv⟩ := kv
    by_cases hk : k = sid
    · subst hk
      have h2 : sv = s := by
        have h3 : findSession ((k, sv) :: rest) k = some sv := by simp [findSession]
        rw [h3] at h
        injection h
      simp [updateSession, h2]
    · simp only [findSession, if_neg hk] at h
      simp only [updateSession, if_neg hk]
      rw [ih sid s h]

theorem findSession_append_some : ∀ (t l : Table) (k : List Nat) (s : Session),
    findSession t k = some s → findSession (t ++ l) k = some s := by
  intro t
  induction t with
  | nil => intro l k s h; simp [findSession] at h
  | cons kv rest ih =>
    intro l k s h
    obtain ⟨k0, sv⟩ := kv
    by_cases hk : k0 = k
    · simp only [findSession, if_pos hk] at h
      simp only [List.cons_append, findSession, if_pos hk]
      exact h
    · simp only [findSession, if_neg hk] at h
      simp only [List.cons_append, findSession, if_neg hk]
      exact ih l k s h

theorem findSession_append_none : ∀ (t l : Table) (k : List Nat),
    findSession t k = none → findSession (t ++ l) k = findSession l k := by
  intro t
  induction t with
  | nil => intro l k _; rfl
  | cons kv rest ih =>
    intro l k h
    obtain ⟨k0, sv⟩ := kv
    by_cases hk : k0 = k
    · simp [findSession, if_pos hk] at h
    · simp only [findSession, if_neg hk] at h
      simp only [List.cons_append, findSession, if_neg hk]
      exact ih l k h

/-! ## Reassembly-buffer indexing lemmas -/

theorem replicate_getD (n i : Nat) : (List.replicate n ([] : Token)).getD i [] = [] := by
  induction n generalizing i with
  | zero => cases i <;> rfl
  | succ n ih =>
    cases i with
    | zero => rfl
    | succ i => exact ih i

theorem getD_append_pad : ∀ (l : List Token) (n i : Nat),
    (l ++ List.replicate n ([] : Token)).getD i [] = l.getD i [] := by
  intro l
  induction l with
  | nil =>
    intro n i
    simp only [List.nil_append, replicate_getD]
    cases i <;> rfl
  | cons t ts ih =>
    intro n i
    cases i with
    | zero => rfl
    | succ i =>
      simp only [List.cons_append, List.getD_cons_succ]
      exact ih n i

theorem getD_set (l : List Token) : ∀ (j : Nat) (v : Token) (i : Nat),
    (l.set j v).getD i [] = if i = j ∧ j < l.length then v else l.getD i [] := by
  induction l with
  | nil =>
    intro j v i
    rw [if_neg (by simp)]
    rfl
  | cons t ts ih =>
    intro j v i
    cases j with
    | zero =>
      cases i with
      | zero => simp [List.set]
      | succ i => simp [List.set]
    | succ j =>
      cases i with
      | zero => simp [List.set]
      | succ i =>
        simp only [List.set, List.getD_cons_succ]
        rw [ih j v i]
        by_cases h : i = j ∧ j < ts.length
        · rw [if_pos h, if_pos (by simp only [List.length_cons]; omega)]
        · rw [if_neg h, if_neg (by simp only [List.length_cons]; omega)]

theorem setChunk_length : ∀ (c d : List Token) (j : Nat),
    (setChunk d j c).length = d.length := by
  intro c
  induction c with
  | nil => intro d j; rfl
  | cons t ts ih =>
    intro d j
    simp only [setChunk]
    rw [ih (d.set j t) (j + 1), List.length_set]

theorem setChunk_getD : ∀ (c d : List Token) (j i : Nat),
    (setChunk d j c).getD i [] =
      if j ≤ i ∧ i < j + c.length ∧ i < d.length then c.getD (i - j) []
      else d.getD i [] := by
  intro c
  induction c with
  | nil =>
    intro d j i
    rw [if_neg (by simp only [List.length_nil]; omega)]
    rfl
  | cons t ts ih =>
    intro d j i
    simp only [setChunk, List.length_cons]
    rw [ih (d.set j t) (j + 1) i, List.length_set, getD_set d j t i]
    by_cases h1 : j + 1 ≤ i ∧ i < j + 1 + ts.length ∧ i < d.length
    · rw [if_pos h1, if_pos (by omega)]
      have he : i - j = (i - (j + 1)) + 1 := by omega
      rw [he, List.getD_cons_succ]
    · rw [if_neg h1]
      by_cases h2 : i = j ∧ j < d.length
      · rw [if_pos h2, if_pos (by omega)]
        have he : i - j = 0 := by omega
        rw [he, List.getD_cons_zero]
      · rw [if_neg h2, if_neg (by omega)]

theorem add_data_length (s : Session) (p : Nat) (c : List Token) :
    (s.add_data p c).data.length = max s.data.length (p + c.length) := by
  simp only [Session.add_data, setChunk_length, List.length_append,
    List.length_replicate]
  omega

theorem add_data_getD (s : Session) (p : Nat) (c : List Token) (i : Nat) :
    (s.add_data p c).data.getD i [] =
      if p ≤ i ∧ i < p + c.length then c.getD (i - p) []
      else s.data.getD i [] := by
  simp only [Session.add_data]
  rw [setChunk_getD]
  have hlen : (s.data ++ List.replicate (p + c.length - s.data.length) ([] : Token)).length =
      max s.data.length (p + c.length) := by
    simp only [List.length_append, List.length_replicate]
    omega
  by_cases h : p ≤ i ∧ i < p + c.length
  · rw [if_pos (by rw [hlen]; exact ⟨h.1, h.2, by omega⟩), if_pos h]
  · rw [if_neg (by rw [hlen]; omega), if_neg h]
    exact getD_append_pad s.data _ i

theorem add_data_fields (s : Session) (p : Nat) (c : List Token) :
    (s.add_data p c).id = s.id ∧ (s.add_data p c).addr = s.addr ∧
    (s.add_data p c).cursor = s.cursor ∧ (s.add_data p c).send_cursor = s.send_cursor ∧
    (s.add_data p c).acked_until = s.acked_until ∧
    (s.add_data p c).is_closed = s.is_closed ∧
    (s.add_data p c).send_buffer = s.send_buffer := by
  simp [Session.add_data]

/-! ## Indexing helpers for slices -/

theorem getD_drop : ∀ (l : List Token) (m j : Nat),
    (l.drop m).getD j [] = l.getD (m + j) [] := by
  intro l
  induction l with
  | nil =>
    intro m j
    rw [List.drop_nil]
    cases j with
    | zero => cases m <;> rfl
    | succ j => cases m <;> rfl
  | cons t ts ih =>
    intro m j
    cases m with
    | zero => rw [List.drop_zero, Nat.zero_add]
    | succ m =>
      rw [List.drop_succ_cons, ih m j]
      have he : m + 1 + j = (m + j) + 1 := by omega
      rw [he, List.getD_cons_succ]

theorem getD_take : ∀ (l : List Token) (n j : Nat),
    (l.take n).getD j [] = if j < n then l.getD j [] else [] := by
  intro l
  induction l with
  | nil =>
    intro n j
    rw [List.take_nil]
    by_cases h : j < n
    · rw [if_pos h]
    · rw [if_neg h]
      cases j <;> rfl
  | cons t ts ih =>
    intro n j
    cases n with
    | zero =>
      rw [List.take_zero, if_neg (by omega)]
      cases j <;> rfl
    | succ n =>
      cases j with
      | zero => rw [List.take_succ_cons, if_pos (by omega)]; rfl
      | succ j =>
        rw [List.take_succ_cons, List.getD_cons_succ, ih n j, List.getD_cons_succ]
        by_cases h : j < n
        · rw [if_pos h, if_pos (by omega)]
        · rw [if_neg h, if_neg (by omega)]

theorem no_nl_suffix {s : List Token} {c : Nat}
    (h : ∀ j, c ≤ j → j < s.length → s.getD j [] ≠ ([10] : Token)) :
    ∀ t ∈ s.drop c, isNl t = false := by
  intro t ht
  obtain ⟨⟨k, hk⟩, hget⟩ := List.mem_iff_get.mp ht
  have hgd : (s.drop c).getD k [] = t := by
    rw [List.getD_eq_get _ _ hk, hget]
  rw [getD_drop] at hgd
  have hlt : c + k < s.length := by
    have := hk
    simp only [List.length_drop] at this
    omega
  have hne := h (c + k) (by omega) hlt
  rw [hgd] at hne
  simp [isNl, hne]

/-! ## Lemmas about `handleLoop` and `handle_data` -/

theorem handleLoop_fields : ∀ (fuel : Nat) (s : Session) (i : Nat),
    (handleLoop fuel s i).1.data = s.data ∧
    (handleLoop fuel s i).1.id = s.id ∧
    (handleLoop fuel s i).1.addr = s.addr ∧
    (handleLoop fuel s i).1.acked_until = s.acked_until ∧
    (handleLoop fuel s i).1.is_closed = s.is_closed := by
  intro fuel
  induction fuel with
  | zero => intro s i; exact ⟨rfl, rfl, rfl, rfl, rfl⟩
  | succ fuel ih =>
    intro s i
    by_cases h : s.data.getD i [] = ([10] : Token)
    · simp only [handleLoop, if_pos h]
      exact ih _ (i + 1)
    · simp only [handleLoop, if_neg h]
      exact ih s (i + 1)

theorem handleLoop_cursor_mono : ∀ (fuel : Nat) (s : Session) (i : Nat),
    s.cursor ≤ i → s.cursor ≤ (handleLoop fuel s i).1.cursor := by
  intro fuel
  induction fuel with
  | zero => intro s i _; exact le_refl _
  | succ fuel ih =>
    intro s i h
    by_cases hnl : s.data.getD i [] = ([10] : Token)
    · simp only [handleLoop, if_pos hnl]
      refine le_trans (show s.cursor ≤ i + 1 by omega) ?_
      have hs' := ih { s with
          send_buffer := s.send_buffer ++ ((s.data.take i).drop s.cursor).reverse ++ [[10]],
          cursor := i + 1,
          send_cursor := s.send_cursor + ((s.data.take i).drop s.cursor).length + 1 }
        (i + 1) (le_of_eq rfl)
      exact hs'
    · simp only [handleLoop, if_neg hnl]
      exact ih s (i + 1) (by omega)

theorem handleLoop_no_nl : ∀ (fuel : Nat) (s : Session) (i : Nat),
    (∀ j, i ≤ j → s.data.getD j [] ≠ ([10] : Token)) →
    handleLoop fuel s i = (s, []) := by
  intro fuel
  induction fuel with
  | zero => intro s i _; rfl
  | succ fuel ih =>
    intro s i h
    have hnl := h i (le_refl i)
    simp only [handleLoop, if_neg hnl]
    exact ih s (i + 1) (fun j hj => h j (by omega))

theorem handleLoop_spec : ∀ (fuel : Nat) (s : Session) (i : Nat),
    s.data.length = fuel + i →
    s.cursor ≤ i →
    (∀ j, s.cursor ≤ j → j < i → s.data.getD j [] ≠ ([10] : Token)) →
    (handleLoop fuel s i).1 =
      { s with
        send_buffer := s.send_buffer ++ linesOut (s.data.drop s.cursor),
        cursor := s.cursor + consumed (s.data.drop s.cursor),
        send_cursor := s.send_cursor + consumed (s.data.drop s.cursor) } := by
  intro fuel
  induction fuel with
  | zero =>
    intro s i hlen hci hno
    have hnone : firstIdx isNl (s.data.drop s.cursor) = none := by
      rw [firstIdx_none_iff]
      exact no_nl_suffix (fun j h1 h2 => hno j h1 (by omega))
    have h0 : handleLoop 0 s i = (s, []) := rfl
    rw [h0, linesOut_none hnone, consumed_none hnone]
    cases s
    simp
  | succ fuel ih =>
    intro s i hlen hci hno
    have hilen : i < s.data.length := by omega
    by_cases hnl : s.data.getD i [] = ([10] : Token)
    · simp only [handleLoop, if_pos hnl]
      have hfi : firstIdx isNl (s.data.drop s.cursor) = some (i - s.cursor) := by
        refine firstIdx_eq_some_of ?_ ?_ ?_
        · simp only [List.length_drop]; omega
        · rw [getD_drop]
          have he : s.cursor + (i - s.cursor) = i := by omega
          rw [he, hnl]
          decide
        · intro j hj
          rw [getD_drop]
          have hne := hno (s.cursor + j) (by omega) (by omega)
          simp only [isNl, decide_eq_false_iff_not]
          exact hne
      have hline : (s.data.take i).drop s.cursor = (s.data.drop s.cursor).take (i - s.cursor) :=
        List.drop_take i s.cursor s.data
      have hdrop2 : (s.data.drop s.cursor).drop (i - s.cursor + 1) = s.data.drop (i + 1) := by
        rw [List.drop_drop]
        have he : s.cursor + (i - s.cursor + 1) = i + 1 := by omega
        rw [he]
      have hlinelen : ((s.data.take i).drop s.cursor).length = i - s.cursor := by
        simp only [List.length_drop, List.length_take]
        omega
      have hlo : linesOut (s.data.drop s.cursor) =
          ((s.data.take i).drop s.cursor).reverse ++ [[10]] ++ linesOut (s.data.drop (i + 1)) := by
        rw [linesOut_some hfi, hline, hdrop2]
      have hco : consumed (s.data.drop s.cursor) =
          (i - s.cursor) + 1 + consumed (s.data.drop (i + 1)) := by
        rw [consumed_some hfi, hdrop2]
      have hih := ih { s with
          send_buffer := s.send_buffer ++ ((s.data.take i).drop s.cursor).reverse ++ [[10]],
          cursor := i + 1,
          send_cursor := s.send_cursor + ((s.data.take i).drop s.cursor).length + 1 }
        (i + 1) (by simpa using (by omega : s.data.length = fuel + (i + 1)))
        (le_refl _)
        (by
          intro j h1 h2
          have h1' : i + 1 ≤ j := h1
          omega)
      rw [hih]
      obtain ⟨sid0, addr0, data0, cur0, sc0, ack0, cl0, sb0⟩ := s
      dsimp only at hco hlo hlinelen hci ⊢
      simp only [Session.mk.injEq, true_and, and_true]
      refine ⟨?_, ?_, ?_⟩
      · rw [hco]
        omega
      · rw [hco, hlinelen]
        omega
      · rw [hlo]
        simp [List.append_assoc]
    · simp only [handleLoop, if_neg hnl]
      have hih := ih s (i + 1) (by omega) (by omega)
        (by
          intro j h1 h2
          by_cases hji : j = i
          · subst hji; exact hnl
          · exact hno j h1 (by omega))
      exact hih

theorem handle_data_spec (s : Session) (h : ([] : Token) ∉ s.data) :
    (s.handle_data).1 = { s with
      send_buffer := s.send_buffer ++ linesOut (s.data.drop s.cursor),
      cursor := s.cursor + consumed (s.data.drop s.cursor),
      send_cursor := s.send_cursor + consumed (s.data.drop s.cursor) } := by
  unfold Session.handle_data
  rw [if_neg h]
  by_cases hc : s.cursor ≤ s.data.length
  · exact handleLoop_spec _ s s.cursor (by omega) (le_refl _) (by intro j h1 h2; omega)
  · have hf : s.data.length - s.cursor = 0 := by omega
    rw [hf]
    have hd : s.data.drop s.cursor = [] := List.drop_eq_nil_of_le (by omega)
    have h0 : handleLoop 0 s s.cursor = (s, []) := rfl
    rw [h0, hd]
    have hl0 : linesOut ([] : List Token) = [] := rfl
    have hc0 : consumed ([] : List Token) = 0 := rfl
    rw [hl0, hc0]
    cases s
    simp

theorem handle_data_fields (s : Session) :
    (s.handle_data).1.data = s.data ∧ (s.handle_data).1.id = s.id ∧
    (s.handle_data).1.addr = s.addr ∧ (s.handle_data).1.acked_until = s.acked_until ∧
    (s.handle_data).1.is_closed = s.is_closed := by
  unfold Session.handle_data
  by_cases h : ([] : Token) ∈ s.data
  · rw [if_pos h]
    exact ⟨rfl, rfl, rfl, rfl, rfl⟩
  · rw [if_neg h]
    exact handleLoop_fields _ s s.cursor

theorem handle_data_cursor_mono (s : Session) : s.cursor ≤ (s.handle_data).1.cursor := by
  unfold Session.handle_data
  by_cases h : ([] : Token) ∈ s.data
  · rw [if_pos h]
  · rw [if_neg h]
    exact handleLoop_cursor_mono _ s s.cursor (le_refl _)

theorem handle_data_no_nl (s : Session)
    (h : ∀ j, s.cursor ≤ j → s.data.getD j [] ≠ ([10] : Token)) :
    s.handle_data = (s, []) := by
  unfold Session.handle_data
  by_cases hm : ([] : Token) ∈ s.data
  · rw [if_pos hm]
  · rw [if_neg hm]
    exact handleLoop_no_nl _ s s.cursor (fun j hj => h j hj)

/-! ## Composition lemmas for `linesOut` and `consumed` -/

theorem linesOut_nil : linesOut ([] : List Token) = [] := rfl

theorem consumed_nil : consumed ([] : List Token) = 0 := rfl

theorem lines_append : ∀ (n : Nat) (a b : List Token), a.length ≤ n →
    consumed a = a.length →
    linesOut (a ++ b) = linesOut a ++ linesOut b ∧
    consumed (a ++ b) = a.length + consumed b := by
  intro n
  induction n with
  | zero =>
    intro a b h _
    have ha : a = [] := List.length_eq_zero.mp (by omega)
    subst ha
    exact ⟨by rw [List.nil_append, linesOut_nil, List.nil_append],
      by rw [List.nil_append, List.length_nil, Nat.zero_add]⟩
  | succ n ih =>
    intro a b hlen hc
    cases ha : firstIdx isNl a with
    | none =>
      have h0 := consumed_none ha
      have ha0 : a = [] := List.length_eq_zero.mp (by omega)
      subst ha0
      exact ⟨by rw [List.nil_append, linesOut_nil, List.nil_append],
        by rw [List.nil_append, List.length_nil, Nat.zero_add]⟩
    | some i =>
      have hi := firstIdx_some_lt ha
      have hfab : firstIdx isNl (a ++ b) = some i := firstIdx_append_of_some ha b
      have htake : (a ++ b).take i = a.take i :=
        List.take_append_of_le_length (by omega)
      have hdrop : (a ++ b).drop (i + 1) = a.drop (i + 1) ++ b :=
        List.drop_append_of_le_length (by omega)
      have hcd : consumed (a.drop (i + 1)) = (a.drop (i + 1)).length := by
        rw [consumed_some ha] at hc
        simp only [List.length_drop]
        omega
      have hrec := ih (a.drop (i + 1)) b (by simp only [List.length_drop]; omega) hcd
      constructor
      · rw [linesOut_some hfab, htake, hdrop, linesOut_some ha, hrec.1]
        simp [List.append_assoc]
      · rw [consumed_some hfab, hdrop, hrec.2, consumed_some ha] at *
        simp only [List.length_drop] at *
        omega

theorem linesOut_append_of_boundary {a b : List Token} (hc : consumed a = a.length) :
    linesOut (a ++ b) = linesOut a ++ linesOut b :=
  (lines_append a.length a b (le_refl _) hc).1

theorem consumed_append_of_boundary {a b : List Token} (hc : consumed a = a.length) :
    consumed (a ++ b) = a.length + consumed b :=
  (lines_append a.length a b (le_refl _) hc).2

theorem take_consumed : ∀ (n : Nat) (l : List Token), l.length ≤ n →
    linesOut (l.take (consumed l)) = linesOut l ∧
    consumed (l.take (consumed l)) = consumed l := by
  intro n
  induction n with
  | zero =>
    intro l h
    have hl : l = [] := List.length_eq_zero.mp (by omega)
    subst hl
    exact ⟨rfl, rfl⟩
  | succ n ih =>
    intro l hlen
    cases hf : firstIdx isNl l with
    | none =>
      rw [consumed_none hf, List.take_zero]
      exact ⟨by rw [linesOut_nil, linesOut_none hf], by rw [consumed_nil]⟩
    | some i =>
      have hi := firstIdx_some_lt hf
      have hc2le : consumed (l.drop (i + 1)) ≤ l.length - (i + 1) := by
        have := consumed_length_le (l.drop (i + 1))
        simp only [List.length_drop] at this
        omega
      have hfi2 : firstIdx isNl (l.take (i + 1 + consumed (l.drop (i + 1)))) = some i := by
        refine firstIdx_eq_some_of ?_ ?_ ?_
        · simp only [List.length_take]
          omega
        · rw [getD_take, if_pos (by omega)]
          exact (firstIdx_spec hf).1
        · intro j hj
          rw [getD_take, if_pos (by omega)]
          exact (firstIdx_spec hf).2 j hj
      have hdt : (l.take (i + 1 + consumed (l.drop (i + 1)))).drop (i + 1) =
          (l.drop (i + 1)).take (consumed (l.drop (i + 1))) := by
        rw [List.drop_take]
        have he : i + 1 + consumed (l.drop (i + 1)) - (i + 1) = consumed (l.drop (i + 1)) := by
          omega
        rw [he]
      have htt : (l.take (i + 1 + consumed (l.drop (i + 1)))).take i = l.take i := by
        rw [List.take_take]
        have he : min i (i + 1 + consumed (l.drop (i + 1))) = i := by omega
        rw [he]
      have hrec := ih (l.drop (i + 1)) (by simp only [List.length_drop]; omega)
      constructor
      · rw [consumed_some hf, linesOut_some hfi2, htt, hdt, hrec.1, linesOut_some hf]
      · rw [consumed_some hf, consumed_some hfi2, hdt, hrec.2]

theorem linesOut_take_consumed (l : List Token) :
    linesOut (l.take (consumed l)) = linesOut l :=
  (take_consumed l.length l (le_refl _)).1

theorem consumed_take_consumed (l : List Token) :
    consumed (l.take (consumed l)) = consumed l :=
  (take_consumed l.length l (le_refl _)).2

theorem no_nl_after_consumed : ∀ (n : Nat) (l : List Token), l.length ≤ n →
    ∀ t ∈ l.drop (consumed l), isNl t = false := by
  intro n
  induction n with
  | zero =>
    intro l h t ht
    have hl : l = [] := List.length_eq_zero.mp (by omega)
    subst hl
    simp at ht
  | succ n ih =>
    intro l hlen t ht
    cases hf : firstIdx isNl l with
    | none =>
      rw [consumed_none hf, List.drop_zero] at ht
      exact ((firstIdx_none_iff _ _).mp hf) t ht
    | some i =>
      have hi := firstIdx_some_lt hf
      rw [consumed_some hf] at ht
      have he : l.drop (i + 1 + consumed (l.drop (i + 1))) =
          (l.drop (i + 1)).drop (consumed (l.drop (i + 1))) := by
        rw [List.drop_drop]
      rw [he] at ht
      exact ih (l.drop (i + 1)) (by simp only [List.length_drop]; omega) t ht

theorem no_nl_after_consumed' (l : List Token) :
    ∀ t ∈ l.drop (consumed l), isNl t = false :=
  no_nl_after_consumed l.length l (le_refl _)

/-! ## Tokenizer structure lemmas -/

theorem length_dropWhile_le' (p : Nat → Bool) : ∀ l : List Nat,
    (l.dropWhile p).length ≤ l.length := by
  intro l
  induction l with
  | nil => exact le_refl _
  | cons c rest ih =>
    rw [List.dropWhile_cons]
    by_cases h : p c
    · rw [if_pos h]
      simp only [List.length_cons]
      omega
    · rw [if_neg h]

theorem tokenizeAux_shape : ∀ (fuel : Nat) (l : List Nat), l.length ≤ fuel →
    ∀ t ∈ tokenizeAux fuel l, t ≠ [] ∧
      (t.length = 1 ∨ (t.length = 2 ∧ t.head? = some 92) ∨ (∀ b ∈ t, b = 10)) := by
  intro fuel
  induction fuel with
  | zero => intro l h t ht; simp [tokenizeAux] at ht
  | succ fuel ih =>
    intro l hlen t ht
    cases l with
    | nil => simp [tokenizeAux] at ht
    | cons c rest =>
      simp only [tokenizeAux] at ht
      by_cases h10 : c = 10
      · rw [if_pos h10] at ht
        rcases List.mem_cons.mp ht with rfl | ht'
        · refine ⟨by simp, Or.inr (Or.inr ?_)⟩
          intro b hb
          rcases List.mem_cons.mp hb with rfl | hb'
          · rfl
          · have := List.mem_takeWhile_imp hb'
            simpa using this
        · refine ih (rest.dropWhile (fun b => b = 10)) ?_ t ht'
          have hd := length_dropWhile_le' (fun b => decide (b = 10)) rest
          simp only [List.length_cons] at hlen
          omega
      · rw [if_neg h10] at ht
        by_cases h92 : c = 92
        · rw [if_pos h92] at ht
          cases rest with
          | nil =>
            simp only [List.mem_singleton] at ht
            subst ht
            exact ⟨by simp, Or.inl (by simp)⟩
          | cons c2 rest2 =>
            dsimp only at ht
            by_cases h2 : c2 = 10
            · rw [if_pos h2] at ht
              rcases List.mem_cons.mp ht with rfl | ht'
              · exact ⟨by simp, Or.inl (by simp)⟩
              · refine ih (c2 :: rest2) ?_ t ht'
                simp only [List.length_cons] at hlen ⊢
                omega
            · rw [if_neg h2] at ht
              rcases List.mem_cons.mp ht with rfl | ht'
              · exact ⟨by simp, Or.inr (Or.inl (by simp))⟩
              · refine ih rest2 ?_ t ht'
                simp only [List.length_cons] at hlen
                omega
        · rw [if_neg h92] at ht
          rcases List.mem_cons.mp ht with rfl | ht'
          · exact ⟨by simp, Or.inl (by simp)⟩
          · refine ih rest ?_ t ht'
            simp only [List.length_cons] at hlen
            omega

theorem tokenize_shape (l : List Nat) : ∀ t ∈ tokenize l, t ≠ [] ∧
    (t.length = 1 ∨ (t.length = 2 ∧ t.head? = some 92) ∨ (∀ b ∈ t, b = 10)) :=
  tokenizeAux_shape l.length l (le_refl _)

theorem tokenize_ne_nil (l : List Nat) : ∀ t ∈ tokenize l, t ≠ [] :=
  fun t ht => (tokenize_shape l t ht).1

/-! ## Chunking lemmas for `send_data` -/

theorem chunksOfAux_fuel : ∀ f1 f2 (l : List Token), l.length ≤ f1 → l.length ≤ f2 →
    chunksOfAux f1 l = chunksOfAux f2 l := by
  intro f1
  induction f1 with
  | zero =>
    intro f2 l h1 _
    have hl : l = [] := List.length_eq_zero.mp (by omega)
    subst hl
    cases f2 <;> rfl
  | succ f ih =>
    intro f2 l h1 h2
    cases l with
    | nil => cases f2 <;> rfl
    | cons t ts =>
      cases f2 with
      | zero => simp only [List.length_cons] at h2; omega
      | succ g =>
        simp only [chunksOfAux]
        rw [ih g ((t :: ts).drop 512)
          (by simp only [List.length_drop, List.length_cons] at *; omega)
          (by simp only [List.length_drop, List.length_cons] at *; omega)]

theorem chunksOf_cons (t : Token) (ts : List Token) :
    chunksOf (t :: ts) = (t :: ts).take 512 :: chunksOf ((t :: ts).drop 512) := by
  simp only [chunksOf, List.length_cons, chunksOfAux]
  rw [chunksOfAux_fuel ts.length ((t :: ts).drop 512).length ((t :: ts).drop 512)
    (by simp only [List.length_drop, List.length_cons]; omega) (le_refl _)]

theorem chunksOf_flatten : ∀ (n : Nat) (l : List Token), l.length ≤ n →
    (chunksOf l).flatten = l := by
  intro n
  induction n with
  | zero =>
    intro l h
    have hl : l = [] := List.length_eq_zero.mp (by omega)
    subst hl
    rfl
  | succ n ih =>
    intro l hlen
    cases l with
    | nil => rfl
    | cons t ts =>
      rw [chunksOf_cons, List.flatten_cons,
        ih ((t :: ts).drop 512) (by simp only [List.length_drop, List.length_cons] at *; omega)]
      exact List.take_append_drop 512 (t :: ts)

theorem chunksOf_flatten' (l : List Token) : (chunksOf l).flatten = l :=
  chunksOf_flatten l.length l (le_refl _)

theorem chunksOf_pieces : ∀ (n : Nat) (l : List Token), l.length ≤ n →
    ∀ piece ∈ chunksOf l, piece ≠ [] ∧ piece.length ≤ 512 := by
  intro n
  induction n with
  | zero =>
    intro l h piece hp
    have hl : l = [] := List.length_eq_zero.mp (by omega)
    subst hl
    simp [chunksOf, chunksOfAux] at hp
  | succ n ih =>
    intro l hlen piece hp
    cases l with
    | nil => simp [chunksOf, chunksOfAux] at hp
    | cons t ts =>
      rw [chunksOf_cons] at hp
      rcases List.mem_cons.mp hp with rfl | hp'
      · constructor
        · simp
        · simp only [List.length_take]
          omega
      · exact ih ((t :: ts).drop 512)
          (by simp only [List.length_drop, List.length_cons] at *; omega) piece hp'

theorem chunkLoopAux_get? : ∀ (fuel : Nat) (buf : List Token) (c k : Nat)
    (id : List Nat) (addr : Nat), buf.length ≤ fuel →
    (chunkLoopAux id addr fuel buf c).get? k =
      ((chunksOf buf).get? k).map
        (fun piece => (mkDataMsg id (c + 512 * k) piece.flatten, addr)) := by
  intro fuel
  induction fuel with
  | zero =>
    intro buf c k id addr h
    have hl : buf = [] := List.length_eq_zero.mp (by omega)
    subst hl
    rfl
  | succ fuel ih =>
    intro buf c k id addr hlen
    cases buf with
    | nil => rfl
    | cons t ts =>
      simp only [chunkLoopAux]
      rw [chunksOf_cons]
      cases k with
      | zero =>
        simp only [List.get?_cons_zero, Option.map_some']
        rw [show c + 512 * 0 = c by omega]
      | succ k =>
        simp only [List.get?_cons_succ]
        rw [ih ((t :: ts).drop 512) (c + 512) k id addr
          (by simp only [List.length_drop, List.length_cons] at *; omega)]
        have he : c + 512 + 512 * k = c + 512 * (k + 1) := by ring
        rw [he]

theorem send_data_closed (s : Session) (h : s.is_closed = true) :
    s.send_data = [] := by
  unfold Session.send_data
  rw [if_pos h]

theorem send_data_get? (s : Session) (h : s.is_closed = false) (k : Nat) :
    (s.send_data).get? k =
      ((chunksOf s.send_buffer).get? k).map
        (fun piece => (mkDataMsg s.id (512 * k) piece.flatten, s.addr)) := by
  unfold Session.send_data
  rw [if_neg (by simp [h]), chunkLoopAux_get? s.send_buffer.length s.send_buffer 0 k
    s.id s.addr (le_refl _)]
  simp only [Nat.zero_add]

theorem maybe_retransmit_mem (table : Table) :
    ∀ m ∈ maybe_retransmit table,
      ∃ kv ∈ table, kv.2.is_closed = false ∧ m ∈ kv.2.send_data := by
  unfold maybe_retransmit
  intro m hm
  rw [List.mem_flatten] at hm
  obtain ⟨l, hl, hml⟩ := hm
  rw [List.mem_map] at hl
  obtain ⟨kv, hkv, rfl⟩ := hl
  by_cases hc : kv.2.is_closed
  · rw [if_pos hc] at hml
    simp at hml
  · rw [if_neg hc] at hml
    exact ⟨kv, hkv, by simpa using hc, hml⟩

/-! ## Small indexing helpers -/

theorem getD_of_le : ∀ (l : List Token) (i : Nat), l.length ≤ i → l.getD i [] = [] := by
  intro l
  induction l with
  | nil => intro i _; cases i <;> rfl
  | cons t ts ih =>
    intro i h
    cases i with
    | zero => simp at h
    | succ i =>
      rw [List.getD_cons_succ]
      exact ih i (by simp only [List.length_cons] at h; omega)

theorem getD_mem_of_lt (l : List Token) (i : Nat) (h : i < l.length) :
    l.getD i [] ∈ l := by
  rw [List.getD_eq_get l [] h]
  exact List.get_mem l i h

theorem stream_getD_ne_nil {stream : List Token} (hne : ∀ t ∈ stream, t ≠ [])
    {i : Nat} (h : i < stream.length) : stream.getD i [] ≠ [] :=
  hne _ (getD_mem_of_lt stream i h)

theorem list_eq_of_getD : ∀ (a b : List Token), a.length = b.length →
    (∀ i, i < a.length → a.getD i [] = b.getD i []) → a = b := by
  intro a
  induction a with
  | nil =>
    intro b h _
    exact (List.length_eq_zero.mp h.symm).symm
  | cons t ts ih =>
    intro b h hp
    cases b with
    | nil => simp at h
    | cons u us =>
      have h0 := hp 0 (by simp)
      simp only [List.getD_cons_zero] at h0
      have hrest : ts = us := by
        refine ih us (by simp only [List.length_cons] at h; omega) ?_
        intro i hi
        have := hp (i + 1) (by simp only [List.length_cons]; omega)
        simpa using this
      rw [h0, hrest]

/-! ## The reassembly invariant -/

theorem inv_mkSession (stream : List Token) (id : List Nat) (addr : Nat) :
    Inv stream (mkSession id addr) := by
  refine ⟨?_, ?_, ?_, ?_, ?_, ?_⟩
  · simp [mkSession]
  · intro i
    right
    cases i <;> rfl
  · exact le_refl _
  · rfl
  · rfl
  · intro _
    rfl

theorem stepW_inv {stream : List Token} (_hne : ∀ t ∈ stream, t ≠ [])
    {s : Session} (hInv : Inv stream s) {w : Nat × List Token}
    (hw : Consistent stream w) : Inv stream (stepW s w) := by
  obtain ⟨p, c⟩ := w
  obtain ⟨hw1, hw2⟩ := hw
  dsimp only at hw1 hw2
  have h1len : (s.add_data p c).data.length = max s.data.length (p + c.length) :=
    add_data_length s p c
  have h1slots : ∀ i, (s.add_data p c).data.getD i [] = stream.getD i [] ∨
      (s.add_data p c).data.getD i [] = [] := by
    intro i
    rw [add_data_getD]
    by_cases h : p ≤ i ∧ i < p + c.length
    · rw [if_pos h]
      left
      rw [hw2 (i - p) (by omega)]
      have he : p + (i - p) = i := by omega
      rw [he]
    · rw [if_neg h]
      exact hInv.slots i
  have h1f := add_data_fields s p c
  unfold stepW
  by_cases hc : ([] : Token) ∈ (s.add_data p c).data
  · have hh : ((s.add_data p c).handle_data) = ((s.add_data p c), []) := by
      unfold Session.handle_data
      rw [if_pos hc]
    rw [hh]
    refine ⟨?_, h1slots, ?_, ?_, ?_, ?_⟩
    · rw [h1len]
      have := hInv.len_le
      omega
    · rw [h1len, h1f.2.2.1]
      have := hInv.cursor_le
      omega
    · rw [h1f.2.2.1, h1f.2.2.2.2.2.2]
      exact hInv.sb
    · rw [h1f.2.2.1]
      exact hInv.boundary
    · intro hnm
      exact absurd hc hnm
  · have hspec := handle_data_spec (s.add_data p c) hc
    have hM : (s.add_data p c).data = stream.take (s.add_data p c).data.length := by
      refine list_eq_of_getD _ _ ?_ ?_
      · rw [List.length_take]
        have := hInv.len_le
        have := hw1
        rw [h1len]
        omega
      · intro i hi
        rw [getD_take, if_pos (by omega)]
        rcases h1slots i with h | h
        · exact h
        · exact absurd h (by
            intro hnil
            exact hc (hnil ▸ getD_mem_of_lt _ i hi))
    have hcur_le_data : s.cursor ≤ (s.add_data p c).data.length := by
      rw [h1len]
      have := hInv.cursor_le
      omega
    have hcurN : s.cursor ≤ stream.length := by
      have := hInv.len_le
      have := hInv.cursor_le
      omega
    have hMN : (s.add_data p c).data.length ≤ stream.length := by
      rw [h1len]
      have := hInv.len_le
      omega
    -- decomposition of the complete prefix at the cursor boundary
    have htakeA : (stream.take (s.add_data p c).data.length).take s.cursor =
        stream.take s.cursor := by
      rw [List.take_take]
      have he : min s.cursor (s.add_data p c).data.length = s.cursor := by omega
      rw [he]
    have hAlen : (stream.take s.cursor).length = s.cursor := by
      rw [List.length_take]
      omega
    have hbound : consumed (stream.take s.cursor) = (stream.take s.cursor).length := by
      rw [hAlen]
      exact hInv.boundary
    have hsplit : stream.take s.cursor ++
        (stream.take (s.add_data p c).data.length).drop s.cursor =
        stream.take (s.add_data p c).data.length := by
      rw [← htakeA]
      exact List.take_append_drop s.cursor _
    have hlo : linesOut (stream.take (s.add_data p c).data.length) =
        linesOut (stream.take s.cursor) ++
          linesOut ((stream.take (s.add_data p c).data.length).drop s.cursor) := by
      rw [← hsplit, linesOut_append_of_boundary hbound, hsplit]
    have hco : consumed (stream.take (s.add_data p c).data.length) =
        s.cursor + consumed ((stream.take (s.add_data p c).data.length).drop s.cursor) := by
      conv_lhs => rw [← hsplit]
      rw [consumed_append_of_boundary hbound, hAlen]
    -- the state after handle_data
    rw [hspec]
    have hdata2 : ({ s.add_data p c with
        send_buffer := (s.add_data p c).send_buffer ++
          linesOut ((s.add_data p c).data.drop (s.add_data p c).cursor),
        cursor := (s.add_data p c).cursor +
          consumed ((s.add_data p c).data.drop (s.add_data p c).cursor),
        send_cursor := (s.add_data p c).send_cursor +
          consumed ((s.add_data p c).data.drop (s.add_data p c).cursor) } : Session).data =
        (s.add_data p c).data := rfl
    have hcur2 : ({ s.add_data p c with
        send_buffer := (s.add_data p c).send_buffer ++
          linesOut ((s.add_data p c).data.drop (s.add_data p c).cursor),
        cursor := (s.add_data p c).cursor +
          consumed ((s.add_data p c).data.drop (s.add_data p c).cursor),
        send_cursor := (s.add_data p c).send_cursor +
          consumed ((s.add_data p c).data.drop (s.add_data p c).cursor) } : Session).cursor =
        (s.add_data p c).cursor +
          consumed ((s.add_data p c).data.drop (s.add_data p c).cursor) := rfl
    -- rewrite the cursor/data of the add_data state
    have hcur_new : (s.add_data p c).cursor +
        consumed ((s.add_data p c).data.drop (s.add_data p c).cursor) =
        consumed (stream.take (s.add_data p c).data.length) := by
      rw [h1f.2.2.1, hco]
      have he : (s.add_data p c).data.drop s.cursor =
          (stream.take (s.add_data p c).data.length).drop s.cursor := by
        conv_lhs => rw [hM]
      rw [he]
    have hcons_le : consumed (stream.take (s.add_data p c).data.length) ≤
        (s.add_data p c).data.length := by
      have := consumed_length_le (stream.take (s.add_data p c).data.length)
      rw [List.length_take] at this
      omega
    constructor
    · rw [hdata2, h1len]
      have := hInv.len_le
      omega
    · intro i
      rw [hdata2]
      exact h1slots i
    · rw [hdata2, hcur2, hcur_new]
      exact hcons_le
    · show (s.add_data p c).send_buffer ++
          linesOut ((s.add_data p c).data.drop (s.add_data p c).cursor) = _
      rw [hcur2, hcur_new, h1f.2.2.2.2.2.2, hInv.sb]
      have he1 : linesOut ((s.add_data p c).data.drop (s.add_data p c).cursor) =
          linesOut ((stream.take (s.add_data p c).data.length).drop s.cursor) := by
        congr 1
        rw [h1f.2.2.1]
        conv_lhs => rw [hM]
      rw [he1, ← hlo]
      -- linesOut (take (consumed (take M))) = linesOut (take M)
      have he2 : stream.take (consumed (stream.take (s.add_data p c).data.length)) =
          (stream.take (s.add_data p c).data.length).take
            (consumed (stream.take (s.add_data p c).data.length)) := by
        rw [List.take_take]
        have he : min (consumed (stream.take (s.add_data p c).data.length))
            (s.add_data p c).data.length =
            consumed (stream.take (s.add_data p c).data.length) := by omega
        rw [he]
      rw [he2, linesOut_take_consumed]
    · rw [hcur2, hcur_new]
      have he2 : stream.take (consumed (stream.take (s.add_data p c).data.length)) =
          (stream.take (s.add_data p c).data.length).take
            (consumed (stream.take (s.add_data p c).data.length)) := by
        rw [List.take_take]
        have he : min (consumed (stream.take (s.add_data p c).data.length))
            (s.add_data p c).data.length =
            consumed (stream.take (s.add_data p c).data.length) := by omega
        rw [he]
      rw [he2, consumed_take_consumed]
    · intro _
      rw [hdata2, hcur2, hcur_new]
      conv_rhs => rw [hM]

theorem applyDatagrams_inv {stream : List Token} (hne : ∀ t ∈ stream, t ≠ []) :
    ∀ (ws : List (Nat × List Token)) (s : Session),
    Inv stream s → (∀ w ∈ ws, Consistent stream w) →
    Inv stream (applyDatagrams s ws) := by
  intro ws
  induction ws with
  | nil => intro s h _; exact h
  | cons w ws ih =>
    intro s h hall
    exact ih (stepW s w) (stepW_inv hne h (hall w (List.mem_cons_self _ _)))
      (fun x hx => hall x (List.mem_cons_of_mem _ hx))

theorem stepW_filled {stream : List Token} (hne : ∀ t ∈ stream, t ≠ [])
    {s : Session} {w : Nat × List Token} (hw : Consistent stream w) (i : Nat)
    (h : s.data.getD i [] ≠ [] ∨ (w.1 ≤ i ∧ i < w.1 + w.2.length)) :
    (stepW s w).data.getD i [] ≠ [] := by
  obtain ⟨p, c⟩ := w
  obtain ⟨hw1, hw2⟩ := hw
  dsimp only at hw1 hw2 h
  unfold stepW
  have hdata : (((s.add_data p c).handle_data).1).data = (s.add_data p c).data :=
    (handle_data_fields _).1
  rw [hdata, add_data_getD]
  by_cases hin : p ≤ i ∧ i < p + c.length
  · rw [if_pos hin, hw2 (i - p) (by omega)]
    have he : p + (i - p) = i := by omega
    rw [he]
    exact stream_getD_ne_nil hne (by omega)
  · rw [if_neg hin]
    rcases h with h | h
    · exact h
    · exact absurd h hin

theorem applyDatagrams_filled {stream : List Token} (hne : ∀ t ∈ stream, t ≠ []) :
    ∀ (ws : List (Nat × List Token)) (s : Session) (i : Nat),
    (∀ w ∈ ws, Consistent stream w) →
    (s.data.getD i [] ≠ [] ∨ Covers ws i) →
    (applyDatagrams s ws).data.getD i [] ≠ [] := by
  intro ws
  induction ws with
  | nil =>
    intro s i _ h
    rcases h with h | h
    · exact h
    · obtain ⟨w, hw, _⟩ := h
      simp at hw
  | cons w ws ih =>
    intro s i hall h
    refine ih (stepW s w) i (fun x hx => hall x (List.mem_cons_of_mem _ hx)) ?_
    rcases h with h | h
    · exact Or.inl (stepW_filled hne (hall w (List.mem_cons_self _ _)) i (Or.inl h))
    · obtain ⟨w', hw', hcov⟩ := h
      rcases List.mem_cons.mp hw' with rfl | hw''
      · exact Or.inl (stepW_filled hne (hall w' (List.mem_cons_self _ _)) i (Or.inr hcov))
      · exact Or.inr ⟨w', hw'', hcov⟩

theorem applyDatagrams_final {stream : List Token} (hne : ∀ t ∈ stream, t ≠ [])
    (ws : List (Nat × List Token)) (id : List Nat) (addr : Nat)
    (hcons : ∀ w ∈ ws, Consistent stream w)
    (hcov : ∀ i, i < stream.length → Covers ws i) :
    (applyDatagrams (mkSession id addr) ws).data = stream ∧
    (applyDatagrams (mkSession id addr) ws).send_buffer = linesOut stream ∧
    (applyDatagrams (mkSession id addr) ws).handle_data =
      (applyDatagrams (mkSession id addr) ws, []) := by
  have hInv := applyDatagrams_inv hne ws (mkSession id addr)
    (inv_mkSession stream id addr) hcons
  have hdata : (applyDatagrams (mkSession id addr) ws).data = stream := by
    by_cases hN : stream.length = 0
    · have hs : stream = [] := List.length_eq_zero.mp hN
      have hle := hInv.len_le
      rw [hs] at hle ⊢
      simp only [List.length_nil, Nat.le_zero] at hle
      exact List.length_eq_zero.mp hle
    · have hfill : ∀ i, i < stream.length →
          (applyDatagrams (mkSession id addr) ws).data.getD i [] ≠ [] := by
        intro i hi
        exact applyDatagrams_filled hne ws (mkSession id addr) i hcons
          (Or.inr (hcov i hi))
      have hlen_ge : stream.length ≤ (applyDatagrams (mkSession id addr) ws).data.length := by
        by_contra hlt
        push_neg at hlt
        exact hfill (stream.length - 1) (by omega)
          (getD_of_le _ _ (by omega))
      have hleneq : (applyDatagrams (mkSession id addr) ws).data.length = stream.length := by
        have := hInv.len_le
        omega
      refine list_eq_of_getD _ _ hleneq ?_
      intro i hi
      rcases hInv.slots i with h | h
      · exact h
      · exact absurd h (hfill i (by omega))
  have hnm : ([] : Token) ∉ (applyDatagrams (mkSession id addr) ws).data := by
    rw [hdata]
    intro hmem
    exact (hne [] hmem) rfl
  have hcur : (applyDatagrams (mkSession id addr) ws).cursor = consumed stream := by
    have h := hInv.whole hnm
    rw [hdata] at h
    exact h
  have hsb : (applyDatagrams (mkSession id addr) ws).send_buffer = linesOut stream := by
    rw [hInv.sb, hcur]
    exact linesOut_take_consumed stream
  refine ⟨hdata, hsb, ?_⟩
  apply handle_data_no_nl
  intro j hj
  rw [hdata]
  rw [hcur] at hj
  by_cases hjN : j < stream.length
  · have hmem : stream.getD j [] ∈ stream.drop (consumed stream) := by
      have he : stream.getD j [] =
          (stream.drop (consumed stream)).getD (j - consumed stream) [] := by
        rw [getD_drop]
        congr 1
        omega
      rw [he]
      apply getD_mem_of_lt
      simp only [List.length_drop]
      omega
    have hno := no_nl_after_consumed' stream _ hmem
    simp only [isNl, decide_eq_false_iff_not] at hno
    exact hno
  · rw [getD_of_le _ _ (by omega)]
    intro hcontra
    cases hcontra

/-! ## Branch characterizations of the protocol engine -/

theorem handleConnect_valid (table : Table) (sid : List Nat) (addr : Nat) (v : Int)
    (hsid : 47 ∉ sid) (hint : pyInt sid = some v) :
    handleConnect table sid addr =
      if (2 : Int) ^ 31 < v then (table, [])
      else
        (if (findSession table sid).isSome then table
         else table ++ [(sid, mkSession sid addr)],
         [(mkAckMsg sid [48], addr)]) := by
  unfold handleConnect
  rw [if_neg hsid, hint]

theorem handleConnect_nonnumeric (table : Table) (sid : List Nat) (addr : Nat)
    (hsid : 47 ∉ sid) (hint : pyInt sid = none) :
    handleConnect table sid addr = (table, []) := by
  unfold handleConnect
  rw [if_neg hsid, hint]

theorem handleDataMsg_accept (table : Table) (sid pos payload : List Nat) (addr : Nat)
    (s : Session) (v : Int)
    (hsid : 47 ∉ sid) (hpos : 47 ∉ pos)
    (hfind : findSession table sid = some s) (hopen : s.is_closed = false)
    (hnoslash : ([47] : Token) ∉ tokenize payload)
    (hint : pyInt pos = some v) (hv : 0 ≤ v) :
    handleDataMsg table (sid ++ [47] ++ pos ++ [47] ++ payload) addr =
      (updateSession table sid ((s.add_data v.toNat (tokenize payload)).handle_data).1,
        ((s.add_data v.toNat (tokenize payload)).handle_data).2 ++
          [(mkAckMsg sid
              (decRepr (ackLenOf ((s.add_data v.toNat (tokenize payload)).handle_data).1.data)),
            addr)]) := by
  unfold handleDataMsg
  rw [show sid ++ [47] ++ pos ++ [47] ++ payload = sid ++ 47 :: (pos ++ 47 :: payload) from
    by simp]
  rw [splitFirst_append _ hsid]
  dsimp only
  rw [splitFirst_append _ hpos]
  dsimp only
  rw [hfind]
  dsimp only
  rw [if_neg (by simp [hopen]), if_neg hnoslash, hint]
  dsimp only
  rw [if_neg (by omega)]

theorem handleDataMsg_unknown (table : Table) (sid pos payload : List Nat) (addr : Nat)
    (hsid : 47 ∉ sid) (hpos : 47 ∉ pos)
    (hfind : findSession table sid = none) :
    handleDataMsg table (sid ++ [47] ++ pos ++ [47] ++ payload) addr =
      (table, [(mkCloseMsg sid, addr)]) := by
  unfold handleDataMsg
  rw [show sid ++ [47] ++ pos ++ [47] ++ payload = sid ++ 47 :: (pos ++ 47 :: payload) from
    by simp]
  rw [splitFirst_append _ hsid]
  dsimp only
  rw [splitFirst_append _ hpos]
  dsimp only
  rw [hfind]

theorem handleDataMsg_slash (table : Table) (sid pos payload : List Nat) (addr : Nat)
    (s : Session)
    (hsid : 47 ∉ sid) (hpos : 47 ∉ pos)
    (hfind : findSession table sid = some s) (hopen : s.is_closed = false)
    (hslash : ([47] : Token) ∈ tokenize payload) :
    handleDataMsg table (sid ++ [47] ++ pos ++ [47] ++ payload) addr = (table, []) := by
  unfold handleDataMsg
  rw [show sid ++ [47] ++ pos ++ [47] ++ payload = sid ++ 47 :: (pos ++ 47 :: payload) from
    by simp]
  rw [splitFirst_append _ hsid]
  dsimp only
  rw [splitFirst_append _ hpos]
  dsimp only
  rw [hfind]
  dsimp only
  rw [if_neg (by simp [hopen]), if_pos hslash]

theorem handleDataMsg_nonnumeric (table : Table) (sid pos payload : List Nat) (addr : Nat)
    (s : Session)
    (hsid : 47 ∉ sid) (hpos : 47 ∉ pos)
    (hfind : findSession table sid = some s) (hopen : s.is_closed = false)
    (hnoslash : ([47] : Token) ∉ tokenize payload)
    (hint : pyInt pos = none) :
    handleDataMsg table (sid ++ [47] ++ pos ++ [47] ++ payload) addr = (table, []) := by
  unfold handleDataMsg
  rw [show sid ++ [47] ++ pos ++ [47] ++ payload = sid ++ 47 :: (pos ++ 47 :: payload) from
    by simp]
  rw [splitFirst_append _ hsid]
  dsimp only
  rw [splitFirst_append _ hpos]
  dsimp only
  rw [hfind]
  dsimp only
  rw [if_neg (by simp [hopen]), if_neg hnoslash, hint]

theorem handleAck_known (table : Table) (sid until_ : List Nat) (addr : Nat)
    (s : Session) (v : Int)
    (hsid : 47 ∉ sid) (hu : 47 ∉ until_)
    (hfind : findSession table sid = some s)
    (hint : pyInt until_ = some v) :
    handleAck table (sid ++ [47] ++ until_) addr =
      (updateSession table sid { s with acked_until := v },
       if (s.data.length : Int) < v then [(mkCloseMsg sid, addr)] else []) := by
  unfold handleAck
  rw [show sid ++ [47] ++ until_ = sid ++ 47 :: until_ from by simp]
  rw [splitFirst_append _ hsid]
  dsimp only
  rw [if_neg hu, hfind]
  dsimp only
  rw [hint]

theorem handleAck_unknown (table : Table) (sid until_ : List Nat) (addr : Nat)
    (hsid : 47 ∉ sid) (hu : 47 ∉ until_)
    (hfind : findSession table sid = none) :
    handleAck table (sid ++ [47] ++ until_) addr = (table, []) := by
  unfold handleAck
  rw [show sid ++ [47] ++ until_ = sid ++ 47 :: until_ from by simp]
  rw [splitFirst_append _ hsid]
  dsimp only
  rw [if_neg hu, hfind]

theorem handleAck_nonnumeric (table : Table) (sid until_ : List Nat) (addr : Nat)
    (s : Session)
    (hsid : 47 ∉ sid) (hu : 47 ∉ until_)
    (hfind : findSession table sid = some s)
    (hint : pyInt until_ = none) :
    handleAck table (sid ++ [47] ++ until_) addr = (table, []) := by
  unfold handleAck
  rw [show sid ++ [47] ++ until_ = sid ++ 47 :: until_ from by simp]
  rw [splitFirst_append _ hsid]
  dsimp only
  rw [if_neg hu, hfind]
  dsimp only
  rw [hint]

theorem handleClose_unknown (table : Table) (sid : List Nat) (addr : Nat)
    (hsid : 47 ∉ sid) (hfind : findSession table sid = none) :
    handleClose table sid addr = (table, []) := by
  unfold handleClose
  rw [if_neg hsid, hfind]

theorem handleClose_known (table : Table) (sid : List Nat) (addr : Nat) (s : Session)
    (hsid : 47 ∉ sid) (hfind : findSession table sid = some s) :
    handleClose table sid addr =
      (updateSession table sid (({ s with is_closed := true }).handle_data).1,
       (({ s with is_closed := true }).handle_data).2 ++ [(mkCloseMsg sid, addr)]) := by
  unfold handleClose
  rw [if_neg hsid, hfind]

/-! ## The first-empty-slot characterization of the cumulative ack -/

theorem ackLenOf_spec (d : List Token) :
    (ackLenOf d = d.length ∧ ([] : Token) ∉ d) ∨
    (ackLenOf d < d.length ∧ d.getD (ackLenOf d) [] = [] ∧
      ∀ j, j < ackLenOf d → d.getD j [] ≠ []) := by
  unfold ackLenOf
  cases hf : firstIdx isEmptySlot d with
  | none =>
    left
    refine ⟨rfl, ?_⟩
    intro hm
    have h1 := (firstIdx_none_iff _ _).mp hf [] hm
    simp [isEmptySlot] at h1
  | some i =>
    right
    obtain ⟨h1, h2⟩ := firstIdx_spec hf
    refine ⟨firstIdx_some_lt hf, ?_, ?_⟩
    · simpa [isEmptySlot] using h1
    · intro j hj
      have h3 := h2 j hj
      simpa [isEmptySlot] using h3

/-! ## Session evolution under each handler (cursor monotone, fill monotone) -/

theorem handleConnect_evolution {table : Table} {rest : List Nat} {addr : Nat}
    {sid : List Nat} {s s' : Session}
    (hfind : findSession table sid = some s)
    (hfind' : findSession (handleConnect table rest addr).1 sid = some s') :
    s' = s := by
  unfold handleConnect at hfind'
  by_cases hm : 47 ∈ rest
  · rw [if_pos hm] at hfind'
    dsimp only at hfind'
    rw [hfind] at hfind'
    injection hfind' with h
    exact h.symm
  · rw [if_neg hm] at hfind'
    cases hp : pyInt rest with
    | none =>
      rw [hp] at hfind'
      dsimp only at hfind'
      rw [hfind] at hfind'
      injection hfind' with h
      exact h.symm
    | some v =>
      rw [hp] at hfind'
      dsimp only at hfind'
      by_cases hv : (2 : Int) ^ 31 < v
      · rw [if_pos hv] at hfind'
        dsimp only at hfind'
        rw [hfind] at hfind'
        injection hfind' with h
        exact h.symm
      · rw [if_neg hv] at hfind'
        dsimp only at hfind'
        by_cases hex : (findSession table rest).isSome
        · rw [if_pos hex] at hfind'
          rw [hfind] at hfind'
          injection hfind' with h
          exact h.symm
        · rw [if_neg hex] at hfind'
          rw [findSession_append_some table _ sid s hfind] at hfind'
          injection hfind' with h
          exact h.symm

theorem handleAck_evolution {table : Table} {rest : List Nat} {addr : Nat}
    {sid : List Nat} {s s' : Session}
    (hfind : findSession table sid = some s)
    (hfind' : findSession (handleAck table rest addr).1 sid = some s') :
    s'.cursor = s.cursor ∧ s'.data = s.data := by
  unfold handleAck at hfind'
  cases hsp : splitFirst 47 rest with
  | none =>
    rw [hsp] at hfind'
    dsimp only at hfind'
    rw [hfind] at hfind'
    injection hfind' with h
    subst h
    exact ⟨rfl, rfl⟩
  | some su =>
    obtain ⟨sid2, until2⟩ := su
    rw [hsp] at hfind'
    dsimp only at hfind'
    by_cases hu : 47 ∈ until2
    · rw [if_pos hu] at hfind'
      dsimp only at hfind'
      rw [hfind] at hfind'
      injection hfind' with h
      subst h
      exact ⟨rfl, rfl⟩
    · rw [if_neg hu] at hfind'
      cases hf2 : findSession table sid2 with
      | none =>
        rw [hf2] at hfind'
        dsimp only at hfind'
        rw [hfind] at hfind'
        injection hfind' with h
        subst h
        exact ⟨rfl, rfl⟩
      | some s2 =>
        rw [hf2] at hfind'
        dsimp only at hfind'
        cases hi : pyInt until2 with
        | none =>
          rw [hi] at hfind'
          dsimp only at hfind'
          rw [hfind] at hfind'
          injection hfind' with h
          subst h
          exact ⟨rfl, rfl⟩
        | some v =>
          rw [hi] at hfind'
          dsimp only at hfind'
          by_cases hss : sid = sid2
          · subst hss
            rw [hfind] at hf2
            injection hf2 with h2
            subst h2
            rw [findSession_update_self table sid s _ hfind] at hfind'
            injection hfind' with h
            subst h
            exact ⟨rfl, rfl⟩
          · rw [findSession_update_ne table sid2 sid _ hss] at hfind'
            rw [hfind] at hfind'
            injection hfind' with h
            subst h
            exact ⟨rfl, rfl⟩

theorem handleClose_evolution {table : Table} {rest : List Nat} {addr : Nat}
    {sid : List Nat} {s s' : Session}
    (hfind : findSession table sid = some s)
    (hfind' : findSession (handleClose table rest addr).1 sid = some s') :
    s.cursor ≤ s'.cursor ∧ (∀ i, s.data.getD i [] ≠ [] → s'.data.getD i [] ≠ []) := by
  unfold handleClose at hfind'
  by_cases hm : 47 ∈ rest
  · rw [if_pos hm] at hfind'
    dsimp only at hfind'
    rw [hfind] at hfind'
    injection hfind' with h
    subst h
    exact ⟨le_refl _, fun i h => h⟩
  · rw [if_neg hm] at hfind'
    cases hf2 : findSession table rest with
    | none =>
      rw [hf2] at hfind'
      dsimp only at hfind'
      rw [hfind] at hfind'
      injection hfind' with h
      subst h
      exact ⟨le_refl _, fun i h => h⟩
    | some s2 =>
      rw [hf2] at hfind'
      dsimp only at hfind'
      by_cases hss : sid = rest
      · subst hss
        rw [hfind] at hf2
        injection hf2 with h2
        subst h2
        rw [findSession_update_self table sid s _ hfind] at hfind'
        injection hfind' with h
        subst h
        constructor
        · exact handle_data_cursor_mono ({ s with is_closed := true })
        · intro i hi
          rw [(handle_data_fields _).1]
          exact hi
      · rw [findSession_update_ne table rest sid _ hss] at hfind'
        rw [hfind] at hfind'
        injection hfind' with h
        subst h
        exact ⟨le_refl _, fun i h => h⟩

theorem handleDataMsg_evolution {table : Table} {rest : List Nat} {addr : Nat}
    {sid : List Nat} {s s' : Session}
    (hfind : findSession table sid = some s)
    (hfind' : findSession (handleDataMsg table rest addr).1 sid = some s') :
    s.cursor ≤ s'.cursor ∧ (∀ i, s.data.getD i [] ≠ [] → s'.data.getD i [] ≠ []) := by
  unfold handleDataMsg at hfind'
  cases hsp1 : splitFirst 47 rest with
  | none =>
    rw [hsp1] at hfind'
    dsimp only at hfind'
    rw [hfind] at hfind'
    injection hfind' with h
    subst h
    exact ⟨le_refl _, fun i h => h⟩
  | some sr =>
    obtain ⟨sid2, rest2⟩ := sr
    rw [hsp1] at hfind'
    dsimp only at hfind'
    cases hsp2 : splitFirst 47 rest2 with
    | none =>
      rw [hsp2] at hfind'
      dsimp only at hfind'
      rw [hfind] at hfind'
      injection hfind' with h
      subst h
      exact ⟨le_refl _, fun i h => h⟩
    | some pp =>
      obtain ⟨pos2, payload2⟩ := pp
      rw [hsp2] at hfind'
      dsimp only at hfind'
      cases hf2 : findSession table sid2 with
      | none =>
        rw [hf2] at hfind'
        dsimp only at hfind'
        rw [hfind] at hfind'
        injection hfind' with h
        subst h
        exact ⟨le_refl _, fun i h => h⟩
      | some s2 =>
        rw [hf2] at hfind'
        dsimp only at hfind'
        by_cases hcl : s2.is_closed
        · rw [if_pos hcl] at hfind'
          dsimp only at hfind'
          rw [hfind] at hfind'
          injection hfind' with h
          subst h
          exact ⟨le_refl _, fun i h => h⟩
        · rw [if_neg hcl] at hfind'
          by_cases hsl : ([47] : Token) ∈ tokenize payload2
          · rw [if_pos hsl] at hfind'
            dsimp only at hfind'
            rw [hfind] at hfind'
            injection hfind' with h
            subst h
            exact ⟨le_refl _, fun i h => h⟩
          · rw [if_neg hsl] at hfind'
            cases hi : pyInt pos2 with
            | none =>
              rw [hi] at hfind'
              dsimp only at hfind'
              rw [hfind] at hfind'
              injection hfind' with h
              subst h
              exact ⟨le_refl _, fun i h => h⟩
            | some v =>
              rw [hi] at hfind'
              dsimp only at hfind'
              by_cases hv : v < 0
              · rw [if_pos hv] at hfind'
                dsimp only at hfind'
                rw [hfind] at hfind'
                injection hfind' with h
                subst h
                exact ⟨le_refl _, fun i h => h⟩
              · rw [if_neg hv] at hfind'
                dsimp only at hfind'
                by_cases hss : sid = sid2
                · subst hss
                  rw [hfind] at hf2
                  injection hf2 with h2
                  subst h2
                  rw [findSession_update_self table sid s _ hfind] at hfind'
                  injection hfind' with h
                  subst h
                  constructor
                  · have h1 : s.cursor = (s.add_data v.toNat (tokenize payload2)).cursor :=
                      ((add_data_fields s _ _).2.2.1).symm
                    rw [h1]
                    exact handle_data_cursor_mono _
                  · intro i hi2
                    rw [(handle_data_fields _).1, add_data_getD]
                    by_cases hin : v.toNat ≤ i ∧ i < v.toNat + (tokenize payload2).length
                    · rw [if_pos hin]
                      apply tokenize_ne_nil
                      apply getD_mem_of_lt
                      omega
                    · rw [if_neg hin]
                      exact hi2
                · rw [findSession_update_ne table sid2 sid _ hss] at hfind'
                  rw [hfind] at hfind'
                  injection hfind' with h
                  subst h
                  exact ⟨le_refl _, fun i h => h⟩

theorem dR_evolution (table : Table) (dgram : List Nat) (addr : Nat)
    {sid : List Nat} {s s' : Session}
    (hfind : findSession table sid = some s)
    (hfind' : findSession (datagramReceived table dgram addr).1 sid = some s') :
    s.cursor ≤ s'.cursor ∧ (∀ i, s.data.getD i [] ≠ [] → s'.data.getD i [] ≠ []) := by
  unfold datagramReceived at hfind'
  by_cases hframe : dgram.head? = some 47 ∧ dgram.getLast? = some 47
  · rw [if_pos hframe] at hfind'
    cases hsp : splitFirst 47 ((dgram.drop 1).dropLast) with
    | none =>
      rw [hsp] at hfind'
      dsimp only at hfind'
      rw [hfind] at hfind'
      injection hfind' with h
      subst h
      exact ⟨le_refl _, fun i h => h⟩
    | some mr =>
      obtain ⟨mt, rest⟩ := mr
      rw [hsp] at hfind'
      dsimp only at hfind'
      by_cases h1 : mt = kConnect
      · rw [if_pos h1] at hfind'
        have he := handleConnect_evolution hfind hfind'
        rw [he]
        exact ⟨le_refl _, fun i h => h⟩
      · rw [if_neg h1] at hfind'
        by_cases h2 : mt = kData
        · rw [if_pos h2] at hfind'
          exact handleDataMsg_evolution hfind hfind'
        · rw [if_neg h2] at hfind'
          by_cases h3 : mt = kAck
          · rw [if_pos h3] at hfind'
            obtain ⟨hc, hd⟩ := handleAck_evolution hfind hfind'
            exact ⟨le_of_eq hc.symm, fun i h => by rw [hd]; exact h⟩
          · rw [if_neg h3] at hfind'
            by_cases h4 : mt = kClose
            · rw [if_pos h4] at hfind'
              exact handleClose_evolution hfind hfind'
            · rw [if_neg h4] at hfind'
              dsimp only at hfind'
              rw [hfind] at hfind'
              injection hfind' with h
              subst h
              exact ⟨le_refl _, fun i h => h⟩
  · rw [if_neg hframe] at hfind'
    dsimp only at hfind'
    rw [hfind] at hfind'
    injection hfind' with h
    subst h
    exact ⟨le_refl _, fun i h => h⟩

/-! ## Redelivery of an already-stored chunk is a no-op on the session -/

theorem add_data_redeliver (s : Session) (p : Nat) (c : List Token)
    (hlen : p + c.length ≤ s.data.length)
    (hmatch : ∀ j, j < c.length → s.data.getD (p + j) [] = c.getD j []) :
    s.add_data p c = s := by
  unfold Session.add_data
  have hpad : s.data ++ List.replicate (p + c.length - s.data.length) ([] : Token) = s.data := by
    have he : p + c.length - s.data.length = 0 := by omega
    rw [he]
    simp
  dsimp only
  rw [hpad]
  have hset : setChunk s.data p c = s.data := by
    refine list_eq_of_getD _ _ (setChunk_length c s.data p) ?_
    intro i hi
    rw [setChunk_getD]
    by_cases h : p ≤ i ∧ i < p + c.length ∧ i < s.data.length
    · rw [if_pos h, ← hmatch (i - p) (by omega)]
      have he : p + (i - p) = i := by omega
      rw [he]
    · rw [if_neg h]
  rw [hset]

/-! ## Single-line emission: line extraction re-sends the whole buffer -/

theorem handleLoop_single : ∀ (fuel : Nat) (s : Session) (i j : Nat),
    i ≤ j → s.data.length = fuel + i → j < s.data.length →
    s.data.getD j [] = ([10] : Token) →
    (∀ k, i ≤ k → k ≠ j → s.data.getD k [] ≠ ([10] : Token)) →
    (handleLoop fuel s i).2 = ((handleLoop fuel s i).1).send_data := by
  intro fuel
  induction fuel with
  | zero =>
    intro s i j h1 h2 h3 _ _
    omega
  | succ fuel ih =>
    intro s i j h1 hlen h3 hnl honly
    by_cases hij : i = j
    · subst hij
      simp only [handleLoop, if_pos hnl]
      have hno : ∀ k, i + 1 ≤ k → ({ s with
          send_buffer := s.send_buffer ++ ((s.data.take i).drop s.cursor).reverse ++ [[10]],
          cursor := i + 1,
          send_cursor := s.send_cursor + ((s.data.take i).drop s.cursor).length + 1 } :
            Session).data.getD k [] ≠ ([10] : Token) := by
        intro k hk
        exact honly k (by omega) (by omega)
      rw [handleLoop_no_nl fuel _ (i + 1) hno]
      dsimp only
      rw [List.append_nil]
    · have hni : s.data.getD i [] ≠ ([10] : Token) := honly i (le_refl _) (by omega)
      simp only [handleLoop, if_neg hni]
      exact ih s (i + 1) j (by omega) (by omega) h3 hnl
        (fun k hk hkj => honly k (by omega) hkj)

theorem handle_data_single (s : Session) (j : Nat) (hnm : ([] : Token) ∉ s.data)
    (hj1 : s.cursor ≤ j) (hj2 : j < s.data.length)
    (hnl : s.data.getD j [] = ([10] : Token))
    (honly : ∀ k, s.cursor ≤ k → k ≠ j → s.data.getD k [] ≠ ([10] : Token)) :
    (s.handle_data).2 = ((s.handle_data).1).send_data := by
  unfold Session.handle_data
  rw [if_neg hnm]
  exact handleLoop_single (s.data.length - s.cursor) s s.cursor j hj1 (by omega) hj2 hnl honly

/-! ## Claim theorems -/

/-- C1 counterexample: the code compares the acknowledged length against the
length of the *receive* buffer, not the outbound buffer.  After
`/connect/1/` and `/data/1/0/abc/` the outbound buffer is empty (no bytes
were ever placed in it), so an `/ack/1/2/` claims more than was ever sent —
the claim demands a `close/SESSION/` reply — yet the engine sends nothing
at all (2 ≤ 3 = len(received)). -/
theorem C1_counterexample :
    ((findSession (datagramReceived (datagramReceived [] (mkConnectDgram [49]) 0).1
        (mkDataDgram [49] [48] [97, 98, 99]) 0).1 [49]).map Session.send_buffer =
      some [] ∧
     (datagramReceived (datagramReceived (datagramReceived [] (mkConnectDgram [49]) 0).1
        (mkDataDgram [49] [48] [97, 98, 99]) 0).1 (mkAckDgram [49] [50]) 0).2 = []) := by
  decide

/-- C1 (amended): for every incoming `ack` datagram naming an existing
session, the engine sets the session's `acked_until` to the claimed length,
leaves the closed flag unchanged, and sends `close/SESSION/` if and only if
the claimed length exceeds the current length of the session's reassembly
buffer `data` (not the outbound buffer). -/
theorem C1_ack_behavior (table : Table) (sid until_ : List Nat) (addr : Nat)
    (s : Session) (v : Int)
    (hsid : 47 ∉ sid) (hu : 47 ∉ until_)
    (hfind : findSession table sid = some s)
    (hint : pyInt until_ = some v) :
    findSession (datagramReceived table (mkAckDgram sid until_) addr).1 sid =
      some { s with acked_until := v } ∧
    ({ s with acked_until := v } : Session).is_closed = s.is_closed ∧
    (datagramReceived table (mkAckDgram sid until_) addr).2 =
      (if (s.data.length : Int) < v then [(mkCloseMsg sid, addr)] else []) := by
  rw [dR_ack, handleAck_known table sid until_ addr s v hsid hu hfind hint]
  exact ⟨findSession_update_self table sid s _ hfind, rfl, rfl⟩

theorem C1_ack_behavior_witness :
    findSession (datagramReceived [([49], mkSession [49] 0)]
        (mkAckDgram [49] [53]) 0).1 [49] =
      some { mkSession [49] 0 with acked_until := 5 } ∧
    (datagramReceived [([49], mkSession [49] 0)] (mkAckDgram [49] [53]) 0).2 =
      [(mkCloseMsg [49], 0)] := by
  have h := C1_ack_behavior [([49], mkSession [49] 0)] [49] [53] 0 (mkSession [49] 0) 5
    (by decide) (by decide) (by decide) (by decide)
  refine ⟨h.1, ?_⟩
  rw [h.2.2]
  decide

/-- C2 counterexample: decoding does not collapse a two-byte escape pair to
its escaped byte: the payload `\/` tokenizes to the two-byte token
`[92, 47]`, not to the single byte `[47]`. -/
theorem C2_counterexample :
    tokenize [92, 47] = [[92, 47]] ∧ ([92, 47] : Token) ≠ [47] := by
  decide

/-- C2 (amended): every token produced by decoding a DATA field is a single
byte, a two-byte escape pair starting with `\` kept intact (not collapsed),
or a maximal run of newline bytes; and a `data` datagram for an existing
open session whose payload tokenizes to a bare unescaped `/` token is
dropped entirely: no response is sent and the table is unchanged. -/
theorem C2_tokenization (payload : List Nat) (table : Table)
    (sid pos : List Nat) (addr : Nat) (s : Session)
    (hsid : 47 ∉ sid) (hpos : 47 ∉ pos)
    (hfind : findSession table sid = some s) (hopen : s.is_closed = false)
    (hslash : ([47] : Token) ∈ tokenize payload) :
    (∀ t ∈ tokenize payload, t ≠ [] ∧
      (t.length = 1 ∨ (t.length = 2 ∧ t.head? = some 92) ∨ (∀ b ∈ t, b = 10))) ∧
    datagramReceived table (mkDataDgram sid pos payload) addr = (table, []) := by
  refine ⟨tokenize_shape payload, ?_⟩
  rw [dR_data]
  exact handleDataMsg_slash table sid pos payload addr s hsid hpos hfind hopen hslash

theorem C2_tokenization_witness :
    datagramReceived [([49], mkSession [49] 0)]
        (mkDataDgram [49] [48] [97, 47, 98]) 0 =
      ([([49], mkSession [49] 0)], []) :=
  (C2_tokenization [97, 47, 98] [([49], mkSession [49] 0)] [49] [48] 0 (mkSession [49] 0)
    (by decide) (by decide) (by decide) (by decide) (by decide)).2

/-- C3: a datagram without the outer slash framing, or with an unknown
message kind, or with a non-numeric integer argument where one is parsed
(the `connect` session id, the `ack` length, or the `data` position on an
existing open session), is dropped with no response and no state change;
a `data` datagram for an unknown session is answered with `close/SESSION/`
and creates no session; a `close` or `ack` datagram for an unknown session
is dropped and creates no session. -/
theorem C3_malformed_handling (table : Table) (addr : Nat) :
    (∀ dgram : List Nat, ¬(dgram.head? = some 47 ∧ dgram.getLast? = some 47) →
        datagramReceived table dgram addr = (table, [])) ∧
    (∀ mt rest : List Nat, 47 ∉ mt → mt ≠ kConnect → mt ≠ kData → mt ≠ kAck →
        mt ≠ kClose →
        datagramReceived table ([47] ++ mt ++ [47] ++ rest ++ [47]) addr = (table, [])) ∧
    (∀ sid : List Nat, 47 ∉ sid → pyInt sid = none →
        datagramReceived table (mkConnectDgram sid) addr = (table, [])) ∧
    (∀ (sid until_ : List Nat) (s : Session), 47 ∉ sid → 47 ∉ until_ →
        findSession table sid = some s → pyInt until_ = none →
        datagramReceived table (mkAckDgram sid until_) addr = (table, [])) ∧
    (∀ (sid pos payload : List Nat) (s : Session), 47 ∉ sid → 47 ∉ pos →
        findSession table sid = some s → s.is_closed = false →
        ([47] : Token) ∉ tokenize payload → pyInt pos = none →
        datagramReceived table (mkDataDgram sid pos payload) addr = (table, [])) ∧
    (∀ sid pos payload : List Nat, 47 ∉ sid → 47 ∉ pos →
        findSession table sid = none →
        datagramReceived table (mkDataDgram sid pos payload) addr =
          (table, [(mkCloseMsg sid, addr)])) ∧
    (∀ sid : List Nat, 47 ∉ sid → findSession table sid = none →
        datagramReceived table (mkCloseDgram sid) addr = (table, [])) ∧
    (∀ sid until_ : List Nat, 47 ∉ sid → 47 ∉ until_ → findSession table sid = none →
        datagramReceived table (mkAckDgram sid until_) addr = (table, [])) := by
  refine ⟨?_, ?_, ?_, ?_, ?_, ?_, ?_, ?_⟩
  · intro dgram h
    exact dR_unframed table dgram addr h
  · intro mt rest hmt h1 h2 h3 h4
    exact dR_unknown_kind table mt rest addr hmt h1 h2 h3 h4
  · intro sid hsid hint
    rw [dR_connect]
    exact handleConnect_nonnumeric table sid addr hsid hint
  · intro sid until_ s hsid hu hfind hint
    rw [dR_ack]
    exact handleAck_nonnumeric table sid until_ addr s hsid hu hfind hint
  · intro sid pos payload s hsid hpos hfind hopen hnoslash hint
    rw [dR_data]
    exact handleDataMsg_nonnumeric table sid pos payload addr s hsid hpos hfind hopen
      hnoslash hint
  · intro sid pos payload hsid hpos hfind
    rw [dR_data]
    exact handleDataMsg_unknown table sid pos payload addr hsid hpos hfind
  · intro sid hsid hfind
    rw [dR_close]
    exact handleClose_unknown table sid addr hsid hfind
  · intro sid until_ hsid hu hfind
    rw [dR_ack]
    exact handleAck_unknown table sid until_ addr hsid hu hfind

theorem C3_malformed_handling_witness :
    datagramReceived [([49], mkSession [49] 0)] [97, 98, 99] 0 =
      ([([49], mkSession [49] 0)], []) ∧
    datagramReceived [([49], mkSession [49] 0)]
        ([47] ++ [120, 121] ++ [47] ++ [49] ++ [47]) 0 =
      ([([49], mkSession [49] 0)], []) ∧
    datagramReceived [([49], mkSession [49] 0)] (mkConnectDgram [97, 98]) 0 =
      ([([49], mkSession [49] 0)], []) ∧
    datagramReceived [([49], mkSession [49] 0)] (mkAckDgram [49] [97]) 0 =
      ([([49], mkSession [49] 0)], []) ∧
    datagramReceived [([49], mkSession [49] 0)] (mkDataDgram [49] [97] [98]) 0 =
      ([([49], mkSession [49] 0)], []) ∧
    datagramReceived [([49], mkSession [49] 0)] (mkDataDgram [50] [48] [97]) 0 =
      ([([49], mkSession [49] 0)], [(mkCloseMsg [50], 0)]) ∧
    datagramReceived [([49], mkSession [49] 0)] (mkCloseDgram [50]) 0 =
      ([([49], mkSession [49] 0)], []) ∧
    datagramReceived [([49], mkSession [49] 0)] (mkAckDgram [50] [48]) 0 =
      ([([49], mkSession [49] 0)], []) := by
  have h := C3_malformed_handling [([49], mkSession [49] 0)] 0
  exact ⟨h.1 [97, 98, 99] (by decide),
    h.2.1 [120, 121] [49] (by decide) (by decide) (by decide) (by decide) (by decide),
    h.2.2.1 [97, 98] (by decide) (by decide),
    h.2.2.2.1 [49] [97] (mkSession [49] 0) (by decide) (by decide) (by decide) (by decide),
    h.2.2.2.2.1 [49] [97] [98] (mkSession [49] 0) (by decide) (by decide) (by decide)
      (by decide) (by decide) (by decide),
    h.2.2.2.2.2.1 [50] [48] [97] (by decide) (by decide) (by decide),
    h.2.2.2.2.2.2.1 [50] (by decide) (by decide),
    h.2.2.2.2.2.2.2 [50] [48] (by decide) (by decide) (by decide)⟩

/-- C4 counterexample: a `connect` with session id exactly `2^31` is *not*
ignored: the code only rejects values strictly greater than `2^31`, so the
session is created and `ack/SESSION/0/` is sent. -/
theorem C4_counterexample :
    (findSession (datagramReceived [] (mkConnectDgram (decRepr (2 ^ 31))) 0).1
        (decRepr (2 ^ 31))).isSome = true ∧
    (datagramReceived [] (mkConnectDgram (decRepr (2 ^ 31))) 0).2 =
      [(mkAckMsg (decRepr (2 ^ 31)) [48], 0)] := by
  decide

/-- C4 (amended): a `connect` datagram whose session id value is strictly
greater than `2^31` is silently ignored (no session created, no response);
any numerically smaller value — including `2^31` itself — is accepted,
creating the session if absent and replying `ack/SESSION/0/`. -/
theorem C4_connect_bound (table : Table) (sid : List Nat) (addr : Nat) (v : Int)
    (hsid : 47 ∉ sid) (hint : pyInt sid = some v) :
    datagramReceived table (mkConnectDgram sid) addr =
      if (2 : Int) ^ 31 < v then (table, [])
      else
        (if (findSession table sid).isSome then table
         else table ++ [(sid, mkSession sid addr)],
         [(mkAckMsg sid [48], addr)]) := by
  rw [dR_connect]
  exact handleConnect_valid table sid addr v hsid hint

theorem C4_connect_bound_witness :
    datagramReceived [] (mkConnectDgram (decRepr (2 ^ 31 + 1))) 0 = ([], []) := by
  have h := C4_connect_bound [] (decRepr (2 ^ 31 + 1)) 0 ((2 : Int) ^ 31 + 1)
    (by decide) (by decide)
  rw [h]
  decide

/-- C5: when the reassembly buffer has no empty slot, `handle_data` takes
each newline token at or after the cursor in order, appends the reversed
run plus a trailing newline to the outbound buffer, and advances the cursor
past the newline (summarised by `linesOut`/`consumed`); consequently, for
any schedule of `data` writes — in any order and with any duplication —
that is consistent with a logical token stream and covers all of it, the
final buffer equals the stream, the outbound buffer holds exactly the
reversed lines of the stream (each emitted once), and running line
extraction again changes nothing and emits nothing. -/
theorem C5_line_extraction
    (s : Session) (hnm : ([] : Token) ∉ s.data)
    (stream : List Token) (ws : List (Nat × List Token)) (id : List Nat) (addr : Nat)
    (hne : ∀ t ∈ stream, t ≠ [])
    (hcons : ∀ w ∈ ws, Consistent stream w)
    (hcov : ∀ i, i < stream.length → Covers ws i) :
    ((s.handle_data).1 = { s with
        send_buffer := s.send_buffer ++ linesOut (s.data.drop s.cursor),
        cursor := s.cursor + consumed (s.data.drop s.cursor),
        send_cursor := s.send_cursor + consumed (s.data.drop s.cursor) }) ∧
    ((applyDatagrams (mkSession id addr) ws).data = stream ∧
     (applyDatagrams (mkSession id addr) ws).send_buffer = linesOut stream ∧
     (applyDatagrams (mkSession id addr) ws).handle_data =
       (applyDatagrams (mkSession id addr) ws, [])) :=
  ⟨handle_data_spec s hnm, applyDatagrams_final hne ws id addr hcons hcov⟩

theorem C5_line_extraction_witness :
    (applyDatagrams (mkSession [49] 0)
        [(3, [[99], [100], [10]]), (0, [[97], [98], [10]]), (3, [[99]])]).data =
      [[97], [98], [10], [99], [100], [10]] ∧
    (applyDatagrams (mkSession [49] 0)
        [(3, [[99], [100], [10]]), (0, [[97], [98], [10]]), (3, [[99]])]).send_buffer =
      [[98], [97], [10], [100], [99], [10]] := by
  have h := C5_line_extraction ({ id := [49], addr := 0, data := [[97], [10]] } : Session)
    (by decide) [[97], [98], [10], [99], [100], [10]]
    [(3, [[99], [100], [10]]), (0, [[97], [98], [10]]), (3, [[99]])] [49] 0
    (by decide) (by decide) (by decide)
  refine ⟨h.2.1, ?_⟩
  rw [h.2.2.1]
  decide

/-- C6: an accepted `data` datagram on an existing open session is answered
(after the payload is written and lines are extracted) by a cumulative ack
whose length is the index of the first empty slot of the reassembly buffer
when one exists, and the full buffer length otherwise. -/
theorem C6_data_ack (table : Table) (sid pos payload : List Nat) (addr : Nat)
    (s : Session) (v : Int)
    (hsid : 47 ∉ sid) (hpos : 47 ∉ pos)
    (hfind : findSession table sid = some s) (hopen : s.is_closed = false)
    (hnoslash : ([47] : Token) ∉ tokenize payload)
    (hint : pyInt pos = some v) (hv : 0 ≤ v) :
    (datagramReceived table (mkDataDgram sid pos payload) addr).2 =
      ((s.add_data v.toNat (tokenize payload)).handle_data).2 ++
        [(mkAckMsg sid
            (decRepr (ackLenOf ((s.add_data v.toNat (tokenize payload)).handle_data).1.data)),
          addr)] ∧
    ((ackLenOf ((s.add_data v.toNat (tokenize payload)).handle_data).1.data =
        ((s.add_data v.toNat (tokenize payload)).handle_data).1.data.length ∧
      ([] : Token) ∉ ((s.add_data v.toNat (tokenize payload)).handle_data).1.data) ∨
     (ackLenOf ((s.add_data v.toNat (tokenize payload)).handle_data).1.data <
        ((s.add_data v.toNat (tokenize payload)).handle_data).1.data.length ∧
      ((s.add_data v.toNat (tokenize payload)).handle_data).1.data.getD
        (ackLenOf ((s.add_data v.toNat (tokenize payload)).handle_data).1.data) [] = [] ∧
      ∀ j, j < ackLenOf ((s.add_data v.toNat (tokenize payload)).handle_data).1.data →
        ((s.add_data v.toNat (tokenize payload)).handle_data).1.data.getD j [] ≠ [])) := by
  constructor
  · rw [dR_data, handleDataMsg_accept table sid pos payload addr s v hsid hpos hfind hopen
      hnoslash hint hv]
  · exact ackLenOf_spec _

theorem C6_data_ack_witness :
    (datagramReceived [([49], mkSession [49] 0)] (mkDataDgram [49] [50] [97, 98]) 0).2 =
      [(mkAckMsg [49] [48], 0)] := by
  have h := C6_data_ack [([49], mkSession [49] 0)] [49] [50] [97, 98] 0 (mkSession [49] 0) 2
    (by decide) (by decide) (by decide) (by decide) (by decide) (by decide) (by decide)
  rw [h.1]
  decide

/-- C7: a valid `connect` (session id value in `[0, 2^31)`) is always
answered with `ack/SESSION/0/`; if the session already exists the table is
unchanged (the existing session is not reset), and if it is absent exactly
one fresh session is appended. -/
theorem C7_connect_idempotent (table : Table) (sid : List Nat) (addr : Nat) (v : Int)
    (hsid : 47 ∉ sid) (hint : pyInt sid = some v) (hv0 : 0 ≤ v) (hv : v < 2 ^ 31) :
    (datagramReceived table (mkConnectDgram sid) addr).2 = [(mkAckMsg sid [48], addr)] ∧
    (∀ s : Session, findSession table sid = some s →
      (datagramReceived table (mkConnectDgram sid) addr).1 = table) ∧
    (findSession table sid = none →
      (datagramReceived table (mkConnectDgram sid) addr).1 =
        table ++ [(sid, mkSession sid addr)]) := by
  rw [dR_connect, handleConnect_valid table sid addr v hsid hint, if_neg (by omega)]
  refine ⟨rfl, ?_, ?_⟩
  · intro s hs
    dsimp only
    rw [if_pos (by rw [hs]; rfl)]
  · intro hs
    dsimp only
    rw [if_neg (by rw [hs]; simp)]

theorem C7_connect_idempotent_witness :
    (datagramReceived [([49], { mkSession [49] 0 with cursor := 5 })]
        (mkConnectDgram [49]) 0).1 = [([49], { mkSession [49] 0 with cursor := 5 })] ∧
    (datagramReceived [([49], { mkSession [49] 0 with cursor := 5 })]
        (mkConnectDgram [49]) 0).2 = [(mkAckMsg [49] [48], 0)] := by
  have h := C7_connect_idempotent [([49], { mkSession [49] 0 with cursor := 5 })] [49] 0 1
    (by decide) (by decide) (by decide) (by decide)
  exact ⟨h.2.1 ({ mkSession [49] 0 with cursor := 5 }) (by decide), h.1⟩

/-- C8: outbound delivery always re-emits the entire outbound buffer from
its beginning as consecutive `data/SESSION/OFFSET/DATA/` datagrams in
pieces of 512 logical tokens with OFFSET = 512·k for the k-th piece (the
pieces concatenate back to the whole buffer and each holds at most 512
nonempty tokens); no datagram is sent for a Closed session; every datagram
emitted by a retransmission tick belongs to the `send_data` of a non-closed
session of the table; and when line extraction extracts (exactly) one line,
its emission is exactly one full re-send of the resulting outbound buffer. -/
theorem C8_send_policy (s : Session) (table : Table) :
    (s.is_closed = false →
      (∀ k : Nat, (s.send_data).get? k =
        ((chunksOf s.send_buffer).get? k).map
          (fun piece => (mkDataMsg s.id (512 * k) piece.flatten, s.addr))) ∧
      (chunksOf s.send_buffer).flatten = s.send_buffer ∧
      (∀ piece ∈ chunksOf s.send_buffer, piece ≠ [] ∧ piece.length ≤ 512)) ∧
    (s.is_closed = true → s.send_data = []) ∧
    (∀ m ∈ maybe_retransmit table,
      ∃ kv ∈ table, kv.2.is_closed = false ∧ m ∈ kv.2.send_data) ∧
    (∀ (s2 : Session) (j : Nat), ([] : Token) ∉ s2.data → s2.cursor ≤ j →
      j < s2.data.length → s2.data.getD j [] = ([10] : Token) →
      (∀ k, s2.cursor ≤ k → k ≠ j → s2.data.getD k [] ≠ ([10] : Token)) →
      (s2.handle_data).2 = ((s2.handle_data).1).send_data) := by
  refine ⟨?_, ?_, ?_, ?_⟩
  · intro h
    exact ⟨send_data_get? s h, chunksOf_flatten' _,
      chunksOf_pieces s.send_buffer.length s.send_buffer (le_refl _)⟩
  · intro h
    exact send_data_closed s h
  · exact maybe_retransmit_mem table
  · intro s2 j h1 h2 h3 h4 h5
    exact handle_data_single s2 j h1 h2 h3 h4 h5

theorem C8_send_policy_witness :
    sampleClosed.send_data = [] ∧
    (sampleOpen.send_data).get? 0 = some (mkDataMsg [49] 0 [98, 97, 10], 0) := by
  refine ⟨(C8_send_policy sampleClosed []).2.1 rfl, ?_⟩
  have h := ((C8_send_policy sampleOpen []).1 rfl).1 0
  rw [h]
  decide

/-- C9: across every datagram handled by the engine, an existing session's
reassembly slots never regress from filled to empty and its cursor never
decreases; and redelivering a `data` datagram whose chunk is already fully
present in a quiescent session changes nothing: the table is returned
unchanged and only the cumulative ack is re-sent. -/
theorem C9_invariants (table : Table) (dgram : List Nat) (addr : Nat) :
    (∀ (sid : List Nat) (s s' : Session),
       findSession table sid = some s →
       findSession (datagramReceived table dgram addr).1 sid = some s' →
       s.cursor ≤ s'.cursor ∧ (∀ i, s.data.getD i [] ≠ [] → s'.data.getD i [] ≠ [])) ∧
    (∀ (sid pos payload : List Nat) (s : Session) (v : Int),
       47 ∉ sid → 47 ∉ pos →
       findSession table sid = some s → s.is_closed = false →
       ([47] : Token) ∉ tokenize payload →
       pyInt pos = some v → 0 ≤ v →
       v.toNat + (tokenize payload).length ≤ s.data.length →
       (∀ j, j < (tokenize payload).length →
         s.data.getD (v.toNat + j) [] = (tokenize payload).getD j []) →
       s.handle_data = (s, []) →
       datagramReceived table (mkDataDgram sid pos payload) addr =
         (table, [(mkAckMsg sid (decRepr (ackLenOf s.data)), addr)])) := by
  constructor
  · intro sid s s' hfind hfind'
    exact dR_evolution table dgram addr hfind hfind'
  · intro sid pos payload s v hsid hpos hfind hopen hnoslash hint hv hlen hmatch hq
    rw [dR_data, handleDataMsg_accept table sid pos payload addr s v hsid hpos hfind hopen
      hnoslash hint hv, add_data_redeliver s v.toNat (tokenize payload) hlen hmatch, hq]
    dsimp only
    rw [updateSession_self table sid s hfind, List.nil_append]

theorem C9_invariants_witness :
    datagramReceived [([49], sampleQuiescent)] (mkDataDgram [49] [48] [97]) 0 =
      ([([49], sampleQuiescent)], [(mkAckMsg [49] [50], 0)]) := by
  exact (C9_invariants [([49], sampleQuiescent)] (mkDataDgram [49] [48] [97]) 0).2
    [49] [48] [97] sampleQuiescent 0 (by decide) (by decide) (by decide) (by decide)
    (by decide) (by decide) (by decide) (by decide) (by decide) (by decide)

/-- C10: session identity is the exact decimal byte string of the SESSION
field, not its numeric value: after a `connect` under one textual form, a
textually different but numerically equal session id addresses a distinct
(absent) table entry, so a `data` datagram under the other form is answered
with `close/SESSION/` and finds no session. -/
theorem C10_textual_identity (sid1 sid2 pos payload : List Nat) (addr : Nat) (v : Int)
    (h1 : 47 ∉ sid1) (h2 : 47 ∉ sid2) (hpos : 47 ∉ pos)
    (hne : sid2 ≠ sid1)
    (hint1 : pyInt sid1 = some v) (hv : ¬((2 : Int) ^ 31 < v))
    (_hint2 : pyInt sid2 = some v) :
    (findSession (datagramReceived [] (mkConnectDgram sid1) addr).1 sid1).isSome = true ∧
    findSession (datagramReceived [] (mkConnectDgram sid1) addr).1 sid2 = none ∧
    datagramReceived (datagramReceived [] (mkConnectDgram sid1) addr).1
        (mkDataDgram sid2 pos payload) addr =
      ((datagramReceived [] (mkConnectDgram sid1) addr).1,
       [(mkCloseMsg sid2, addr)]) := by
  have hc : datagramReceived [] (mkConnectDgram sid1) addr =
      ([(sid1, mkSession sid1 addr)], [(mkAckMsg sid1 [48], addr)]) := by
    rw [dR_connect, handleConnect_valid [] sid1 addr v h1 hint1, if_neg hv]
    rfl
  have hf2 : findSession [(sid1, mkSession sid1 addr)] sid2 = none := by
    simp only [findSession]
    rw [if_neg (fun h => hne h.symm)]
  refine ⟨?_, ?_, ?_⟩
  · rw [hc]
    dsimp only
    simp [findSession]
  · rw [hc]
    exact hf2
  · rw [hc]
    dsimp only
    rw [dR_data]
    exact handleDataMsg_unknown _ sid2 pos payload addr h2 hpos hf2

theorem C10_textual_identity_witness :
    findSession (datagramReceived [] (mkConnectDgram [55]) 0).1 [48, 55] = none ∧
    datagramReceived (datagramReceived [] (mkConnectDgram [55]) 0).1
        (mkDataDgram [48, 55] [48] [97]) 0 =
      ((datagramReceived [] (mkConnectDgram [55]) 0).1, [(mkCloseMsg [48, 55], 0)]) := by
  have h := C10_textual_identity [55] [48, 55] [48] [97] 0 7 (by decide) (by decide)
    (by decide) (by decide) (by decide) (by decide) (by decide)
  exact ⟨h.2.1, h.2.2⟩

example :
    datagramReceived [] (mkConnectDgram [49]) 0 =
      ([([49], mkSession [49] 0)], [(mkAckMsg [49] [48], 0)]) := by decide

example :
    tokenize [97, 92, 47, 98] = [[97], [92, 47], [98]] := by decide

example :
    tokenize [97, 10, 10, 98] = [[97], [10, 10], [98]] := by decide

end LineReversal
